import Mathlib

/-!
Shallow embedding of `src/orderbook.cpp` (pybind11 module `pyorderbook`):
a consolidated multi-venue limit order book with NBBO-change detection.

Modelling conventions:
* `uint32_t` quantities are `Nat` values kept below `2 ^ 32`; the wrapping
  arithmetic of `PriceLevel::adjust` (`vqty[vid] += d; agg += d;` with a signed
  delta) is made explicit through `u32add`, which reduces modulo `2 ^ 32`.
* `double` prices are idealized as rationals; `p2i` mirrors
  `int(p*INV_TICK + 0.5)` (truncation toward zero).
* `std::set<int> ticks_` is a `Finset ℤ`; `std::unordered_map<int,PriceLevel>`
  is a function `ℤ → Option PriceLevel`; `std::unordered_map<std::string,Meta>`
  is a `Finmap`, so states are compared extensionally, exactly as the contents
  of the C++ containers are.
* a C++ exception escaping an operation (`std::map::at` on an absent key) is an
  `Except.error`; every operation returns the state as mutated up to the point
  where the exception is raised, matching the in-place mutations the C++
  methods perform before the throw.
* `Meta::sb` is a pointer to one of the two side books owned by the
  coordinator; it is modelled by the Boolean tag of the side it addresses.
-/

/-- Tick size, `constexpr double TICK = 0.01`. -/
def TICK : ℚ := 1 / 100

/-- Inverse tick, `constexpr int INV_TICK = 100`. -/
def INV_TICK : ℚ := 100

/-- Number of venues, `constexpr size_t NUM_VENUES = 14`. -/
def NUM_VENUES : ℕ := 14

/-- Modulus of `uint32_t` arithmetic. -/
def U32_MOD : ℕ := 2 ^ 32

/-- The value `std::numeric_limits<int>::max()`. -/
def INT_MAX : ℤ := 2 ^ 31 - 1

/-- The value `std::numeric_limits<int>::min()`, used by `SideBook::add` as the
"no NBBO change" return. -/
def INT_MIN : ℤ := -(2 ^ 31)

/-- Modelled from the spec: the source's `venue_string` indexes an undeclared
table `VENUE_CODE`; §6 of the spec fixes the single-character codes of the 14
venues in canonical order (CBOE=C, ISE=I, BOX=B, MIAX=M, ARCA=A, PHLX=P, GEM=G,
EDGX=E, BAT=T, MRX=R, BZX=Z, NDQ=N, C2=2, AMEX=X). -/
def VENUE_CODE (i : Fin 14) : Char :=
  ("CIBMAPGETRZN2X".toList).getD i.val ' '

/-- Modelled from the spec: the source computes
`size_t vid = VENUE_MAP.at(venue_code);` where `venue_code` is a single `char`
but `VENUE_MAP` is keyed by full venue names; per §6 the events carry the
one-character venue code, so the lookup resolves a code to its dense venue
index, raising (`none`, modelling the `std::out_of_range` of `.at`) on an
unrecognized code. -/
def venue_of_code (c : Char) : Option (Fin 14) :=
  (List.finRange 14).find? (fun i => VENUE_CODE i == c)

/-- uint32 wrap-around addition of a signed delta:
`vqty[vid] += d` with `uint32_t` left-hand side and `int` delta. -/
def u32add (x : ℕ) (d : ℤ) : ℕ :=
  (((x : ℤ) + d) % (U32_MOD : ℤ)).toNat

/-- Truncation of a rational toward zero, as C++ `int(double)`. -/
def ratTrunc (x : ℚ) : ℤ :=
  if 0 ≤ x then ⌊x⌋ else ⌈x⌉

/-- `inline int p2i(double p){ return int(p*INV_TICK + 0.5); }` -/
def p2i (p : ℚ) : ℤ := ratTrunc (p * INV_TICK + 1 / 2)

/-- `inline double i2p(int idx){ return idx*TICK; }` -/
def i2p (idx : ℤ) : ℚ := (idx : ℚ) * TICK

/-- `struct PriceLevel`: per-venue resting quantities and their aggregate. -/
@[ext]
structure PriceLevel where
  vqty : Fin 14 → ℕ
  agg : ℕ
deriving DecidableEq

/-- The default-constructed `PriceLevel` (`vqty{}` and `agg{0}`). -/
def PriceLevel.init : PriceLevel := ⟨fun _ => 0, 0⟩

/-- `void adjust(size_t vid,int d){ vqty[vid]+=d; agg+=d; }`. Both additions
wrap modulo `2 ^ 32`. The caller passes `int(qty)` resp. `-int(qty)`; since the
arithmetic is reduced modulo `2 ^ 32`, passing the `Nat` cast directly is
equivalent to the C++ `int` conversion of the `uint32_t` argument. -/
def PriceLevel.adjust (pl : PriceLevel) (vid : Fin 14) (d : ℤ) : PriceLevel :=
  { vqty := Function.update pl.vqty vid (u32add (pl.vqty vid) d)
    agg := u32add pl.agg d }

/-- `class SideBook`: side tag, sorted occupied price indices, and the map
from price index to bucket. -/
@[ext]
structure SideBook where
  is_bid : Bool
  ticks : Finset ℤ
  levels : ℤ → Option PriceLevel

/-- The sentinel `best_idx` value of an empty side:
`is_bid ? -1 : std::numeric_limits<int>::max()`. -/
def SideBook.sentinel (sb : SideBook) : ℤ :=
  if sb.is_bid then -1 else INT_MAX

/-- `int best_idx() const`: maximum occupied tick for bids, minimum for asks,
sentinel when the side is empty. -/
def SideBook.best_idx (sb : SideBook) : ℤ :=
  if h : sb.ticks = ∅ then (if sb.is_bid then -1 else INT_MAX)
  else if sb.is_bid then sb.ticks.max' (Finset.nonempty_of_ne_empty h)
  else sb.ticks.min' (Finset.nonempty_of_ne_empty h)

/-- `int SideBook::add(int idx,size_t vid,uint32_t qty)`.
`levels_[idx]` default-constructs an absent bucket; `prev_best` is read before
the mutation, the tick is inserted when the bucket's aggregate was zero, and
the old best is returned when the best moved — except that a sentinel previous
best is suppressed to `INT_MIN`.

Modelled from the spec: the suppression test in the source reads an undeclared
variable `prev`; per §4.C and §9 of the spec the intended operand is
`prev_best` ("if `prev_best` was the empty sentinel, return none"). -/
def SideBook.add (sb : SideBook) (idx : ℤ) (vid : Fin 14) (qty : ℕ) :
    SideBook × ℤ :=
  let pl := (sb.levels idx).getD PriceLevel.init
  let prev_best := sb.best_idx
  let pl2 := pl.adjust vid (qty : ℤ)
  let sb2 : SideBook :=
    { sb with
      levels := Function.update sb.levels idx (some pl2)
      ticks := if pl.agg = 0 then insert idx sb.ticks else sb.ticks }
  let new_best := sb2.best_idx
  let res : ℤ :=
    if prev_best = sb.sentinel then INT_MIN
    else if new_best ≠ prev_best then prev_best else INT_MIN
  (sb2, res)

/-- `void SideBook::remove(int idx,size_t vid,uint32_t qty)`. The source calls
`levels_.at(idx)`, which throws `std::out_of_range` when the level is absent;
that outcome is `none`. When the adjusted aggregate is zero the tick and the
level are erased. -/
def SideBook.remove (sb : SideBook) (idx : ℤ) (vid : Fin 14) (qty : ℕ) :
    Option SideBook :=
  match sb.levels idx with
  | none => none
  | some pl =>
    let pl2 := pl.adjust vid (-(qty : ℤ))
    if pl2.agg = 0 then
      some { sb with
        ticks := sb.ticks.erase idx
        levels := Function.update sb.levels idx none }
    else
      some { sb with levels := Function.update sb.levels idx (some pl2) }

/-- `double best_price() const`, with the `NAN` returns represented as `none`
(the Python boundary turns `NAN` into `None`). -/
def SideBook.best_price (sb : SideBook) : Option ℚ :=
  let b := sb.best_idx
  if sb.is_bid = true ∧ b = -1 then none
  else if sb.is_bid = false ∧ b = INT_MAX then none
  else some (i2p b)

/-- `static std::string venue_string(const PriceLevel& pl)`: push the code of
every venue with nonzero quantity in venue order, then `std::sort` the
characters. `std::sort` over a linear order produces the unique sorted
rearrangement, which insertion sort also produces. -/
def venue_string (pl : PriceLevel) : List Char :=
  let chars := (List.finRange 14).filterMap
    (fun i => if pl.vqty i ≠ 0 then some (VENUE_CODE i) else none)
  List.insertionSort (fun a b => a ≤ b) chars

/-- `struct Meta{ SideBook* sb; int idx; size_t vid; uint32_t qty; }` of
`class OrderBook`, with the side-book pointer modelled as the tag of the side
it addresses. -/
structure OrderBook.Meta where
  bid : Bool
  idx : ℤ
  vid : Fin 14
  qty : ℕ
deriving DecidableEq

/-- The NBBO-change tuple built by `OrderBook::nbbo_tuple`:
`(new_price, new_agg, old_price, old_agg, old_venue_string)`. -/
structure NbboChange where
  new_price : ℚ
  new_agg : ℕ
  old_price : ℚ
  old_agg : ℕ
  old_venues : List Char
deriving DecidableEq

/-- The tuple returned by `OrderBook::on_execute`:
`(exec_price, total_remaining, qty_list, venue_str)`. -/
structure ExecReport where
  exec_price : ℚ
  level_remaining : ℕ
  per_venue : List ℕ
  venues : List Char
deriving DecidableEq

/-- `class OrderBook`: the two side books and the live-order index `omap_`. -/
@[ext]
structure OrderBook where
  bid_ : SideBook
  ask_ : SideBook
  omap : Finmap (fun _ : String => OrderBook.Meta)

/-- A freshly constructed `OrderBook` (`SideBook bid_{true}; SideBook
ask_{false};` and an empty order index). -/
def OrderBook.init : OrderBook :=
  { bid_ := ⟨true, ∅, fun _ => none⟩
    ask_ := ⟨false, ∅, fun _ => none⟩
    omap := ∅ }

/-- Dereference the side-book pointer: `bid ? bid_ : ask_`. -/
def OrderBook.getSide (ob : OrderBook) (bid : Bool) : SideBook :=
  if bid then ob.bid_ else ob.ask_

/-- Write back through the side-book pointer. -/
def OrderBook.setSide (ob : OrderBook) (bid : Bool) (sb : SideBook) : OrderBook :=
  if bid then { ob with bid_ := sb } else { ob with ask_ := sb }

/-- `py::object OrderBook::on_add(...)`. Side is compared against the bytes
`"BID"`; the venue code is resolved (raising on an unknown code before any
mutation); the side book is mutated, the order is recorded (overwriting any
previous entry for `oid`), and an `NbboChange` is returned unless `SideBook::
add` reported `INT_MIN`. `nbbo_tuple` reads both levels with `.at`, which
raises if either is absent. -/
def OrderBook.on_add (ob : OrderBook) (oid : String) (venue_code : Char)
    (side_b : String) (price : ℚ) (qty : ℕ) :
    OrderBook × Except Unit (Option NbboChange) :=
  let bid := side_b == "BID"
  let idx := p2i price
  match venue_of_code venue_code with
  | none => (ob, Except.error ())
  | some vid =>
    let sb := ob.getSide bid
    let as := sb.add idx vid qty
    let ob1 := ob.setSide bid as.1
    let ob2 := { ob1 with omap := ob1.omap.insert oid ⟨bid, idx, vid, qty⟩ }
    if as.2 ≠ INT_MIN then
      match as.1.levels idx, as.1.levels as.2 with
      | some new_pl, some old_pl =>
        (ob2, Except.ok (some
          ⟨i2p idx, new_pl.agg, i2p as.2, old_pl.agg, venue_string old_pl⟩))
      | _, _ => (ob2, Except.error ())
    else (ob2, Except.ok none)

/-- `void OrderBook::on_cancel(const std::string& oid)`: unknown identifiers
are ignored; otherwise the record is erased from the index and the quantity is
removed from its level (`SideBook::remove` may raise). The function is `void`,
so the Python binding always returns `None`; the `Except` layer carries only
the possible exception. -/
def OrderBook.on_cancel (ob : OrderBook) (oid : String) :
    OrderBook × Except Unit Unit :=
  match ob.omap.lookup oid with
  | none => (ob, Except.ok ())
  | some m =>
    let ob1 := { ob with omap := ob.omap.erase oid }
    match (ob1.getSide m.bid).remove m.idx m.vid m.qty with
    | none => (ob1, Except.error ())
    | some sb2 => (ob1.setSide m.bid sb2, Except.ok ())

/-- `py::object OrderBook::on_execute(const std::string& oid, uint32_t
exec_qty)`: clamp the executed quantity, decrement the order in place, remove
from the level, then re-read the level with `.at` (raising when the level was
fully depleted), build the report, and erase the order when exhausted. -/
def OrderBook.on_execute (ob : OrderBook) (oid : String) (exec_qty : ℕ) :
    OrderBook × Except Unit (Option ExecReport) :=
  match ob.omap.lookup oid with
  | none => (ob, Except.ok none)
  | some m =>
    let take := min exec_qty m.qty
    let m2 : OrderBook.Meta := { m with qty := m.qty - take }
    let ob1 := { ob with omap := ob.omap.insert oid m2 }
    match (ob1.getSide m.bid).remove m.idx m.vid take with
    | none => (ob1, Except.error ())
    | some sb2 =>
      let ob2 := ob1.setSide m.bid sb2
      match sb2.levels m.idx with
      | none => (ob2, Except.error ())
      | some pl =>
        let rep : ExecReport :=
          ⟨i2p m.idx, pl.agg, (List.finRange 14).map pl.vqty, venue_string pl⟩
        let ob3 := if m2.qty = 0 then { ob2 with omap := ob2.omap.erase oid } else ob2
        (ob3, Except.ok (some rep))

/-- `py::object OrderBook::on_replace(...)`:
`auto res=on_add(new_oid,...); on_cancel(old_oid); return res;` — an exception
in either call propagates at that point. -/
def OrderBook.on_replace (ob : OrderBook) (new_oid old_oid : String)
    (venue_code : Char) (side_b : String) (price : ℚ) (qty : ℕ) :
    OrderBook × Except Unit (Option NbboChange) :=
  match ob.on_add new_oid venue_code side_b price qty with
  | (ob1, Except.error e) => (ob1, Except.error e)
  | (ob1, Except.ok res) =>
    match ob1.on_cancel old_oid with
    | (ob2, Except.error e) => (ob2, Except.error e)
    | (ob2, Except.ok _) => (ob2, Except.ok res)

/-- `py::object best_bid() const`. -/
def OrderBook.best_bid (ob : OrderBook) : Option ℚ := ob.bid_.best_price

/-- `py::object best_ask() const`. -/
def OrderBook.best_ask (ob : OrderBook) : Option ℚ := ob.ask_.best_price

/-- The spec's description of `on_replace` (§4.E): "semantically equivalent to
`on_add(new_oid, …)` followed by `on_cancel(old_oid)`, in that order",
returning whatever `on_add` returned; an exception aborts the sequence at the
point it is raised. -/
def replace_spec (ob : OrderBook) (new_oid old_oid : String) (venue_code : Char)
    (side_b : String) (price : ℚ) (qty : ℕ) :
    OrderBook × Except Unit (Option NbboChange) :=
  match ob.on_add new_oid venue_code side_b price qty with
  | (ob1, Except.error e) => (ob1, Except.error e)
  | (ob1, Except.ok res) =>
    match ob1.on_cancel old_oid with
    | (ob2, Except.error e) => (ob2, Except.error e)
    | (ob2, Except.ok _) => (ob2, Except.ok res)

/-- A one-order book: `"a"` resting 2 shares at tick 1000 (price 10.00) on the
bid side via venue CBOE. Used as a concrete witness state. -/
def oneOrderBook : OrderBook :=
  { bid_ := ⟨true, {1000}, Function.update (fun _ => none) 1000
      (some ⟨Function.update (fun _ => 0) 0 2, 2⟩)⟩
    ask_ := ⟨false, ∅, fun _ => none⟩
    omap := Finmap.insert "a" ⟨true, 1000, 0, 2⟩ ∅ }

/-- Well-formedness of a price level (spec §3 and P1): the cached aggregate is
the sum of the per-venue quantities, it is positive (an empty level must not
be present), and the total fits a `uint32_t`. (Quantities are `Nat`, so
"every `vqty[v] ≥ 0`" holds by construction.) -/
def PriceLevel.WF (pl : PriceLevel) : Prop :=
  pl.agg = ∑ v, pl.vqty v ∧ 0 < pl.agg ∧ ∑ v, pl.vqty v < U32_MOD

/-- P1 for one side: the tick set coincides with the occupied levels, and
every present level is well formed. -/
def SideBook.WF (sb : SideBook) : Prop :=
  (∀ t : ℤ, t ∈ sb.ticks ↔ (sb.levels t).isSome) ∧
  (∀ t pl, sb.levels t = some pl → pl.WF)

/-- Total remaining quantity recorded in the order index for
(side, tick, venue). -/
def orderSum (om : Finmap fun _ : String => OrderBook.Meta)
    (b : Bool) (t : ℤ) (v : Fin 14) : ℕ :=
  (om.entries.map fun e =>
    if e.2.bid = b ∧ e.2.idx = t ∧ e.2.vid = v then e.2.qty else 0).sum

/-- The per-venue quantity the book shows at (side, tick, venue); `0` when the
level is absent. -/
def levelVqty (ob : OrderBook) (b : Bool) (t : ℤ) (v : Fin 14) : ℕ :=
  (((ob.getSide b).levels t).getD PriceLevel.init).vqty v

/-- Sum of the per-venue quantities the book shows at (side, tick); `0` when
the level is absent. -/
def levelSum (sb : SideBook) (t : ℤ) : ℕ :=
  ∑ v, ((sb.levels t).getD PriceLevel.init).vqty v

/-- Contribution of one index entry to `orderSum` at (side, tick, venue). -/
def metaContrib (m : OrderBook.Meta) (b : Bool) (t : ℤ) (v : Fin 14) : ℕ :=
  if m.bid = b ∧ m.idx = t ∧ m.vid = v then m.qty else 0

/-- The inductive invariant of the order book: correct side tags, P1 on both
sides, and P2: the book quantity at every (side, tick, venue) is exactly the
total quantity of the index entries resting there. -/
def OrderBook.Inv (ob : OrderBook) : Prop :=
  (∀ b, (ob.getSide b).is_bid = b) ∧
  (∀ b, (ob.getSide b).WF) ∧
  ∀ b t v, levelVqty ob b t v = orderSum ob.omap b t v

/-! ### Concrete value lemmas for the tick codec and venue table -/

theorem p2i_ten : p2i 10 = 1000 := by
  unfold p2i ratTrunc INV_TICK; norm_num

theorem p2i_1001 : p2i (1001 / 100) = 1001 := by
  unfold p2i ratTrunc INV_TICK; norm_num

theorem i2p_1000 : i2p 1000 = 10 := by
  unfold i2p TICK; norm_num

theorem i2p_1001 : i2p 1001 = 1001 / 100 := by
  unfold i2p TICK; norm_num

theorem venue_C : venue_of_code 'C' = some 0 := by decide

theorem venue_I : venue_of_code 'I' = some 1 := by decide

/-! ### C1: the first add on an empty book -/

/-- C1. On an empty book, `on_add` of any valid order (recognized venue code,
side `"BID"` or `"ASK"`, on-tick price whose tick index is in the valid range)
returns no NBBO change, and the best price on the added side becomes the added
price: the previous best was the empty sentinel, which `SideBook::add`
suppresses to `INT_MIN`. -/
theorem c1_first_add_none (oid : String) (c : Char) (vid : Fin 14)
    (side : String) (price : ℚ) (qty : ℕ)
    (hv : venue_of_code c = some vid)
    (hside : side = "BID" ∨ side = "ASK")
    (h0 : 0 ≤ p2i price) (hM : p2i price < INT_MAX)
    (hp : i2p (p2i price) = price) :
    (OrderBook.init.on_add oid c side price qty).2 = Except.ok none ∧
    (side = "BID" → (OrderBook.init.on_add oid c side price qty).1.best_bid = some price) ∧
    (side = "ASK" → (OrderBook.init.on_add oid c side price qty).1.best_ask = some price) := by
  have hM' : p2i price ≠ 2147483647 := by unfold INT_MAX at hM; omega
  have h1 : p2i price ≠ -1 := by omega
  rcases hside with h | h <;> subst h
  · refine ⟨?_, fun _ => ?_, fun h => by simp at h⟩ <;>
      simp [OrderBook.on_add, OrderBook.init, hv, OrderBook.getSide, OrderBook.setSide,
        SideBook.add, SideBook.best_idx, SideBook.sentinel, PriceLevel.init,
        OrderBook.best_bid, SideBook.best_price, INT_MIN, INT_MAX, h1, hp]
  · refine ⟨?_, fun h => by simp at h, fun _ => ?_⟩ <;>
      simp [OrderBook.on_add, OrderBook.init, hv, OrderBook.getSide, OrderBook.setSide,
        SideBook.add, SideBook.best_idx, SideBook.sentinel, PriceLevel.init,
        OrderBook.best_ask, SideBook.best_price, INT_MIN, INT_MAX, hM', hp]

/-- Witness for C1 at the spec's scenario 1: `on_add("a","C","BID",10.00,5)`. -/
theorem c1_first_add_none_witness :
    (OrderBook.init.on_add "a" 'C' "BID" 10 5).2 = Except.ok none ∧
    (OrderBook.init.on_add "a" 'C' "BID" 10 5).1.best_bid = some 10 := by
  have h := c1_first_add_none "a" 'C' 0 "BID" 10 5 venue_C (Or.inl rfl)
    (by rw [p2i_ten]; decide) (by rw [p2i_ten]; decide) (by rw [p2i_ten, i2p_1000])
  exact ⟨h.1, h.2.1 rfl⟩

/-! ### Arithmetic helper lemmas for `u32add` -/

theorem u32add_nat (x q : ℕ) (h : x + q < U32_MOD) : u32add x (q : ℤ) = x + q := by
  unfold u32add U32_MOD at *
  omega

theorem u32add_sub (x q : ℕ) (hq : q ≤ x) (hx : x < U32_MOD) :
    u32add x (-(q : ℤ)) = x - q := by
  unfold u32add U32_MOD at *
  omega

/-! ### C2: an improving add reports the old best level -/

/-- An add at a strictly better (higher) tick on a non-empty bid book with a
non-sentinel best: the tick is inserted and the old best is returned. -/
theorem SideBook.add_improving_bid (sb : SideBook) (idx : ℤ) (vid : Fin 14) (qty : ℕ)
    (hbid : sb.is_bid = true) (hne : sb.ticks ≠ ∅)
    (h0 : 0 ≤ sb.best_idx) (himp : sb.best_idx < idx)
    (hidx : sb.levels idx = none) :
    sb.add idx vid qty =
      (⟨sb.is_bid, insert idx sb.ticks,
        Function.update sb.levels idx (some (PriceLevel.init.adjust vid (qty : ℤ)))⟩,
       sb.best_idx) := by
  have hne2 : insert idx sb.ticks ≠ ∅ := Finset.insert_ne_empty idx sb.ticks
  have hb : sb.best_idx = sb.ticks.max' (Finset.nonempty_of_ne_empty hne) := by
    unfold SideBook.best_idx
    rw [dif_neg hne, if_pos hbid]
  have hnb : (SideBook.mk sb.is_bid (insert idx sb.ticks)
      (Function.update sb.levels idx (some (PriceLevel.init.adjust vid (qty : ℤ))))).best_idx = idx := by
    unfold SideBook.best_idx
    simp only [hbid, if_pos]
    rw [dif_neg hne2, Finset.max'_insert idx sb.ticks (Finset.nonempty_of_ne_empty hne)]
    exact max_eq_right (le_of_lt (hb ▸ himp))
  unfold SideBook.add
  simp only [hidx, Option.getD_none]
  have hinit : PriceLevel.init.agg = 0 := rfl
  simp only [hinit, if_pos, hnb]
  have hsent : sb.sentinel = -1 := by unfold SideBook.sentinel; rw [if_pos hbid]
  rw [hsent]
  have h1 : ¬(sb.best_idx = -1) := by omega
  rw [if_neg h1, if_pos (show idx ≠ sb.best_idx by omega)]

/-- An add at a strictly better (lower) tick on a non-empty ask book with a
non-sentinel best: the tick is inserted and the old best is returned. -/
theorem SideBook.add_improving_ask (sb : SideBook) (idx : ℤ) (vid : Fin 14) (qty : ℕ)
    (hask : sb.is_bid = false) (hne : sb.ticks ≠ ∅)
    (hM : sb.best_idx < INT_MAX) (himp : idx < sb.best_idx)
    (hidx : sb.levels idx = none) :
    sb.add idx vid qty =
      (⟨sb.is_bid, insert idx sb.ticks,
        Function.update sb.levels idx (some (PriceLevel.init.adjust vid (qty : ℤ)))⟩,
       sb.best_idx) := by
  have hne2 : insert idx sb.ticks ≠ ∅ := Finset.insert_ne_empty idx sb.ticks
  have hb : sb.best_idx = sb.ticks.min' (Finset.nonempty_of_ne_empty hne) := by
    unfold SideBook.best_idx
    rw [dif_neg hne]
    simp [hask]
  have hnb : (SideBook.mk sb.is_bid (insert idx sb.ticks)
      (Function.update sb.levels idx (some (PriceLevel.init.adjust vid (qty : ℤ))))).best_idx = idx := by
    unfold SideBook.best_idx
    simp only [hask]
    rw [dif_neg hne2]
    simp only [Bool.false_eq_true, if_false]
    rw [Finset.min'_insert idx sb.ticks (Finset.nonempty_of_ne_empty hne)]
    exact min_eq_right (le_of_lt (hb ▸ himp))
  unfold SideBook.add
  simp only [hidx, Option.getD_none]
  have hinit : PriceLevel.init.agg = 0 := rfl
  simp only [hinit, if_pos, hnb]
  have hsent : sb.sentinel = INT_MAX := by unfold SideBook.sentinel; rw [if_neg (by simp [hask])]
  rw [hsent]
  have h1 : ¬(sb.best_idx = INT_MAX) := by omega
  rw [if_neg h1, if_pos (show idx ≠ sb.best_idx by omega)]

/-- C2. On a side book with a non-empty, non-sentinel best whose best level is
present and whose new price tick is not yet occupied, an `on_add` that
strictly improves the best returns the `NbboChange` record built from the new
best level (the added level, aggregate `qty`) and the old best level (its
aggregate and canonical venue string). -/
theorem c2_improving_add (ob : OrderBook) (sb : SideBook) (oid : String) (c : Char)
    (vid : Fin 14) (side : String) (price : ℚ) (qty : ℕ)
    (hv : venue_of_code c = some vid)
    (hside : side = "BID" ∨ side = "ASK")
    (hsb : ob.getSide (side == "BID") = sb)
    (hb : sb.is_bid = (side == "BID"))
    (hne : sb.ticks ≠ ∅)
    (h0 : 0 ≤ sb.best_idx) (hM : sb.best_idx < INT_MAX)
    (hlvl : (sb.levels sb.best_idx).isSome)
    (hidx : sb.levels (p2i price) = none)
    (himp : if side == "BID" then sb.best_idx < p2i price else p2i price < sb.best_idx)
    (hq : qty < U32_MOD) :
    (ob.on_add oid c side price qty).2 = Except.ok (some
      { new_price := i2p (p2i price), new_agg := qty,
        old_price := i2p sb.best_idx,
        old_agg := ((sb.levels sb.best_idx).getD PriceLevel.init).agg,
        old_venues := venue_string ((sb.levels sb.best_idx).getD PriceLevel.init) }) := by
  obtain ⟨old_pl, hold⟩ := Option.isSome_iff_exists.mp hlvl
  have hmin : sb.best_idx ≠ INT_MIN := by unfold INT_MAX INT_MIN at *; omega
  have hagg : (PriceLevel.init.adjust vid (qty : ℤ)).agg = qty := by
    unfold PriceLevel.adjust PriceLevel.init
    simpa using u32add_nat 0 qty (by omega)
  rcases hside with h | h <;> subst h
  · have hb' : sb.is_bid = true := hb
    have himp' : sb.best_idx < p2i price := himp
    have hnei : sb.best_idx ≠ p2i price := by omega
    simp only [OrderBook.on_add, hv, hsb,
      SideBook.add_improving_bid sb (p2i price) vid qty hb' hne h0 himp' hidx]
    simp only [ne_eq, hmin, not_false_iff, if_true, if_pos,
      Function.update_same, Function.update_noteq hnei, hold, hagg]
    simp [hold]
  · have hb' : sb.is_bid = false := hb
    have himp' : p2i price < sb.best_idx := himp
    have hnei : sb.best_idx ≠ p2i price := by omega
    simp only [OrderBook.on_add, hv, hsb,
      SideBook.add_improving_ask sb (p2i price) vid qty hb' hne hM himp' hidx]
    simp only [ne_eq, hmin, not_false_iff, if_true, if_pos,
      Function.update_same, Function.update_noteq hnei, hold, hagg]
    simp [hold]

/-- Witness for C2 at the spec's scenario 2: after `on_add("a","C","BID",10.00,5)`,
`on_add("b","I","BID",10.01,3)` returns `(10.01, 3, 10.00, 5, "C")`. -/
theorem c2_improving_add_witness :
    (OrderBook.on_add (OrderBook.init.on_add "a" 'C' "BID" 10 5).1
        "b" 'I' "BID" (1001 / 100) 3).2
      = Except.ok (some ⟨1001 / 100, 3, 10, 5, ['C']⟩) := by
  have e : (OrderBook.init.on_add "a" 'C' "BID" 10 5).1 =
      { bid_ := ⟨true, {1000}, Function.update (fun _ => none) 1000
          (some ⟨Function.update (fun _ => 0) 0 5, 5⟩)⟩
        ask_ := ⟨false, ∅, fun _ => none⟩
        omap := Finmap.insert "a" ⟨true, 1000, 0, 5⟩ ∅ } := by
    simp +decide [OrderBook.on_add, OrderBook.init, venue_C, OrderBook.getSide, OrderBook.setSide,
      SideBook.add, SideBook.best_idx, SideBook.sentinel, PriceLevel.init, PriceLevel.adjust,
      INT_MIN, INT_MAX, p2i_ten, u32add, U32_MOD]
  rw [e]
  have h := c2_improving_add
    { bid_ := ⟨true, {1000}, Function.update (fun _ => none) 1000
        (some ⟨Function.update (fun _ => 0) 0 5, 5⟩)⟩
      ask_ := ⟨false, ∅, fun _ => none⟩
      omap := Finmap.insert "a" ⟨true, 1000, 0, 5⟩ ∅ }
    (⟨true, {1000}, Function.update (fun _ => none) 1000
        (some ⟨Function.update (fun _ => 0) 0 5, 5⟩)⟩ : SideBook)
    "b" 'I' 1 "BID" (1001 / 100) 3 venue_I (Or.inl rfl) rfl rfl
    (by decide) (by decide) (by decide) (by decide)
    (by rw [p2i_1001]; decide)
    (by simp +decide [p2i_1001])
    (by decide)
  have eb : (⟨true, {1000}, Function.update (fun _ => none) 1000
      (some ⟨Function.update (fun _ => 0) 0 5, 5⟩)⟩ : SideBook).best_idx = 1000 := by decide
  rw [p2i_1001, eb, i2p_1001, i2p_1000] at h
  rw [h]
  simp only [Except.ok.injEq, Option.some.injEq, NbboChange.mk.injEq]
  exact ⟨trivial, trivial, trivial, by decide, by decide⟩

/-! ### State-manipulation helper lemmas -/

theorem OrderBook.setSide_omap (ob : OrderBook) (b : Bool) (sb : SideBook) :
    (ob.setSide b sb).omap = ob.omap := by
  unfold OrderBook.setSide; split <;> rfl

theorem OrderBook.getSide_setSide (ob : OrderBook) (b : Bool) (sb : SideBook) :
    (ob.setSide b sb).getSide b = sb := by
  unfold OrderBook.setSide OrderBook.getSide; cases b <;> simp

theorem OrderBook.setSide_getSide (ob : OrderBook) (b : Bool) :
    ob.setSide b (ob.getSide b) = ob := by
  unfold OrderBook.setSide OrderBook.getSide; cases b <;> simp

theorem Finmap.erase_insert_of_none {α : Type} [DecidableEq α] {β : α → Type}
    (s : Finmap β) (a : α) (b : β a) (h : s.lookup a = none) :
    (s.insert a b).erase a = s := by
  apply Finmap.ext_lookup
  intro x
  rcases eq_or_ne x a with rfl | hx
  · rw [Finmap.lookup_erase, h]
  · rw [Finmap.lookup_erase_ne hx, Finmap.lookup_insert_of_ne _ hx]

/-! ### C8: cancel/execute of an unknown identifier -/

/-- C8. When `oid` is not live, `on_cancel` and `on_execute` return `none`
(no exception, no report) and leave the whole book state — order index, both
side books, hence also the best bid/ask queries — unchanged. -/
theorem c8_unknown_id_silent_noop (ob : OrderBook) (oid : String) (q : ℕ)
    (h : ob.omap.lookup oid = none) :
    ob.on_cancel oid = (ob, Except.ok ()) ∧
    ob.on_execute oid q = (ob, Except.ok none) := by
  constructor
  · simp [OrderBook.on_cancel, h]
  · simp [OrderBook.on_execute, h]

/-- Witness for C8 at the spec's scenario 6: `on_cancel("ghost")` on an empty
book, plus an execute of the same unknown identifier. -/
theorem c8_unknown_id_silent_noop_witness :
    OrderBook.init.on_cancel "ghost" = (OrderBook.init, Except.ok ()) ∧
    OrderBook.init.on_execute "ghost" 7 = (OrderBook.init, Except.ok none) :=
  c8_unknown_id_silent_noop OrderBook.init "ghost" 7 (by simp [OrderBook.init])

/-! ### C9: canonical venue strings -/

/-- C9. For every price level, the venue string is strictly sorted ascending
by code point and contains exactly the codes of the venues with positive
quantity at that level. -/
theorem c9_venue_string_canonical (pl : PriceLevel) :
    (venue_string pl).Sorted (· < ·) ∧
    ∀ ch : Char, ch ∈ venue_string pl ↔ ∃ v : Fin 14, pl.vqty v ≠ 0 ∧ VENUE_CODE v = ch := by
  have hinj : ∀ a b : Fin 14, VENUE_CODE a = VENUE_CODE b → a = b := by decide
  have hperm : List.Perm (venue_string pl)
      ((List.finRange 14).filterMap
        (fun i => if pl.vqty i ≠ 0 then some (VENUE_CODE i) else none)) :=
    List.perm_insertionSort _ _
  have hnd : ((List.finRange 14).filterMap
      (fun i => if pl.vqty i ≠ 0 then some (VENUE_CODE i) else none)).Nodup := by
    refine List.Nodup.filterMap ?_ (List.nodup_finRange 14)
    intro a b ch ha hb
    by_cases hqa : pl.vqty a ≠ 0 <;> by_cases hqb : pl.vqty b ≠ 0 <;>
      simp [hqa, hqb] at ha hb
    exact hinj a b (ha.trans hb.symm)
  constructor
  · refine List.Sorted.lt_of_le ?_ (hperm.nodup_iff.mpr hnd)
    exact List.sorted_insertionSort _ _
  · intro ch
    rw [hperm.mem_iff, List.mem_filterMap]
    constructor
    · rintro ⟨v, -, hv⟩
      by_cases hq : pl.vqty v ≠ 0
      · simp [hq] at hv
        exact ⟨v, hq, hv⟩
      · simp [hq] at hv
    · rintro ⟨v, hq, hv⟩
      exact ⟨v, List.mem_finRange v, by simp [hq, hv]⟩

/-! ### C3 and C4: full execution at a depleted level raises instead of reporting -/

/-- The state after `on_add("a","C","BID",10.00,2)` on the fresh book, in
explicit form (used by the C3 and C4 failing-input evaluations). -/
theorem add_a_two_state : (OrderBook.init.on_add "a" 'C' "BID" 10 2).1 =
    { bid_ := ⟨true, {1000}, Function.update (fun _ => none) 1000
        (some ⟨Function.update (fun _ => 0) 0 2, 2⟩)⟩
      ask_ := ⟨false, ∅, fun _ => none⟩
      omap := Finmap.insert "a" ⟨true, 1000, 0, 2⟩ ∅ } := by
  simp +decide [OrderBook.on_add, OrderBook.init, venue_C, OrderBook.getSide, OrderBook.setSide,
    SideBook.add, SideBook.best_idx, SideBook.sentinel, PriceLevel.init, PriceLevel.adjust,
    INT_MIN, INT_MAX, p2i_ten, u32add, U32_MOD]

/-- C3 (code bug). Executing the last shares at a level does not return the
zero-aggregate `ExecutionReport` the spec promises: after
`on_add("a","C","BID",10.00,2)`, `on_execute("a",2)` removes the depleted
level and then re-reads it with `levels().at(idx)`, which raises
`std::out_of_range`; the operation ends in an exception, not a report. -/
theorem c3_execute_depleting_level_raises :
    (OrderBook.on_execute (OrderBook.init.on_add "a" 'C' "BID" 10 2).1 "a" 2).2
      = Except.error () ∧
    (OrderBook.on_execute (OrderBook.init.on_add "a" 'C' "BID" 10 2).1 "a" 2).1.bid_.levels 1000
      = none := by
  rw [add_a_two_state]
  constructor <;>
    simp +decide [OrderBook.on_execute, OrderBook.getSide, OrderBook.setSide,
      SideBook.remove, PriceLevel.adjust, Function.update, u32add, U32_MOD,
      Finmap.lookup_insert]

/-- C4 (code bug). A full execution that depletes the level does not remove
the order from the index (the exception fires first): after
`on_add("a","C","BID",10.00,2)` and `on_execute("a",2)`, `"a"` is still in the
index with remaining quantity `0`, and the subsequent `on_cancel("a")` is not
a no-op: it erases the entry and then raises from `levels_.at`. -/
theorem c4_full_execute_leaves_zombie_order :
    (OrderBook.on_execute (OrderBook.init.on_add "a" 'C' "BID" 10 2).1 "a" 2).1.omap.lookup "a"
      = some ⟨true, 1000, 0, 0⟩ ∧
    ((OrderBook.on_execute (OrderBook.init.on_add "a" 'C' "BID" 10 2).1 "a" 2).1.on_cancel "a").2
      = Except.error () ∧
    ((OrderBook.on_execute (OrderBook.init.on_add "a" 'C' "BID" 10 2).1 "a" 2).1.on_cancel "a").1.omap.lookup "a"
      = none := by
  rw [add_a_two_state]
  refine ⟨?_, ?_, ?_⟩ <;>
    simp +decide [OrderBook.on_execute, OrderBook.on_cancel, OrderBook.getSide, OrderBook.setSide,
      SideBook.remove, PriceLevel.adjust, Function.update, u32add, U32_MOD,
      Finmap.lookup_insert, Finmap.insert_insert, Finmap.lookup_erase]

/-! ### C5: replace versus add-then-cancel -/

/-- After a successful venue lookup, `on_add` records the order in the index
(overwriting any previous entry). -/
theorem OrderBook.on_add_omap (ob : OrderBook) (oid : String) (c : Char) (vid : Fin 14)
    (side : String) (price : ℚ) (qty : ℕ) (hv : venue_of_code c = some vid) :
    (ob.on_add oid c side price qty).1.omap
      = ob.omap.insert oid ⟨side == "BID", p2i price, vid, qty⟩ := by
  unfold OrderBook.on_add
  rw [hv]
  dsimp only
  split
  · split
    · simp [OrderBook.setSide_omap]
    · simp [OrderBook.setSide_omap]
  · simp [OrderBook.setSide_omap]

/-- Cancelling an identifier that is not live leaves the state unchanged. -/
theorem OrderBook.on_cancel_not_live (ob : OrderBook) (o : String)
    (h : ob.omap.lookup o = none) : ob.on_cancel o = (ob, Except.ok ()) := by
  simp [OrderBook.on_cancel, h]

/-- C5 (amended). `on_replace(new_oid, old_oid, …)` is exactly `on_add(new_oid,
…)` followed by `on_cancel(old_oid)`, returning what the add returned; and
when `old_oid` is not live *and differs from `new_oid`*, the cancel phase is a
no-op, so the replace coincides with the bare add (the add takes effect). -/
theorem c5_replace_is_add_then_cancel (ob : OrderBook) (n o : String) (c : Char)
    (side : String) (price : ℚ) (qty : ℕ) :
    ob.on_replace n o c side price qty = replace_spec ob n o c side price qty ∧
    (o ≠ n → ob.omap.lookup o = none →
      ob.on_replace n o c side price qty = ob.on_add n c side price qty) := by
  refine ⟨rfl, fun hne hlo => ?_⟩
  unfold OrderBook.on_replace
  cases hv : venue_of_code c with
  | none =>
    have he : ob.on_add n c side price qty = (ob, Except.error ()) := by
      unfold OrderBook.on_add; rw [hv]
    rw [he]
  | some vid =>
    have homap := OrderBook.on_add_omap ob n c vid side price qty hv
    rcases hadd : ob.on_add n c side price qty with ⟨ob1, r⟩
    rw [hadd] at homap
    cases r with
    | error e => rfl
    | ok res =>
      have hl : ob1.omap.lookup o = none := by
        rw [homap, Finmap.lookup_insert_of_ne _ hne, hlo]
      dsimp only
      rw [OrderBook.on_cancel_not_live ob1 o hl]

/-- Witness for C5: a replace with a fresh `old_oid ≠ new_oid` on the empty
book equals the composition and the bare add. -/
theorem c5_replace_is_add_then_cancel_witness :
    OrderBook.init.on_replace "y" "x" 'C' "BID" 10 5
      = replace_spec OrderBook.init "y" "x" 'C' "BID" 10 5 ∧
    OrderBook.init.on_replace "y" "x" 'C' "BID" 10 5
      = OrderBook.init.on_add "y" 'C' "BID" 10 5 :=
  ⟨(c5_replace_is_add_then_cancel OrderBook.init "y" "x" 'C' "BID" 10 5).1,
   (c5_replace_is_add_then_cancel OrderBook.init "y" "x" 'C' "BID" 10 5).2
     (by decide) (by simp [OrderBook.init])⟩

/-- C5 counterexample. The unamended claim says that whenever `old_oid` is not
live the add still takes effect; with `new_oid = old_oid = "x"` on the empty
book ("x" is not live), the cancel phase removes the order the add just
created: afterwards `"x"` is not live and the added level is gone. -/
theorem c5_counterexample_same_oid :
    (OrderBook.init.on_replace "x" "x" 'C' "BID" 10 5).1.omap.lookup "x" = none ∧
    (OrderBook.init.on_replace "x" "x" 'C' "BID" 10 5).1.bid_.levels 1000 = none ∧
    (OrderBook.init.on_replace "x" "x" 'C' "BID" 10 5).1.bid_.ticks = ∅ := by
  refine ⟨?_, ?_, ?_⟩ <;>
    simp +decide [OrderBook.on_replace, OrderBook.on_add, OrderBook.on_cancel,
      OrderBook.init, venue_C, OrderBook.getSide, OrderBook.setSide,
      SideBook.add, SideBook.remove, SideBook.best_idx, SideBook.sentinel,
      PriceLevel.init, PriceLevel.adjust, INT_MIN, INT_MAX, p2i_ten, u32add, U32_MOD,
      Finmap.lookup_insert, Finmap.lookup_erase, Function.update]

/-! ### C6: add followed by cancel restores the book -/

theorem u32add_roundtrip (x q : ℕ) (hx : x < U32_MOD) :
    u32add (u32add x (q : ℤ)) (-(q : ℤ)) = x := by
  unfold u32add U32_MOD at *
  omega

/-- Adding and then removing the same `(venue, qty)` at a tick restores the
side book, provided the tick invariant holds at that tick and any existing
level there is well formed (nonzero aggregate, in-range counters). -/
theorem SideBook.add_remove_roundtrip (sb : SideBook) (idx : ℤ) (vid : Fin 14) (qty : ℕ)
    (htick : idx ∈ sb.ticks ↔ (sb.levels idx).isSome)
    (hpl : ∀ pl, sb.levels idx = some pl →
      pl.agg ≠ 0 ∧ pl.agg < U32_MOD ∧ pl.vqty vid < U32_MOD) :
    ((sb.add idx vid qty).1).remove idx vid qty = some sb := by
  cases hc : sb.levels idx with
  | none =>
    have hnotin : idx ∉ sb.ticks := by
      rw [htick, hc]
      simp
    unfold SideBook.add SideBook.remove
    simp only [hc, Option.getD_none, Function.update_same]
    have h0 : PriceLevel.init.agg = 0 := rfl
    simp only [h0, if_pos, PriceLevel.adjust, Function.update_same, PriceLevel.init]
    have hagg : u32add (u32add 0 (qty : ℤ)) (-(qty : ℤ)) = 0 := u32add_roundtrip 0 qty (by decide)
    simp only [hagg, if_pos]
    congr 1
    refine SideBook.ext rfl (Finset.erase_insert hnotin) ?_
    rw [Function.update_idem, ← hc, Function.update_eq_self]
  | some pl =>
    obtain ⟨hagg0, haggM, hvM⟩ := hpl pl hc
    unfold SideBook.add SideBook.remove
    simp only [hc, Option.getD_some, Function.update_same]
    rw [if_neg hagg0]
    simp only [PriceLevel.adjust, Function.update_same]
    have hagg : u32add (u32add pl.agg (qty : ℤ)) (-(qty : ℤ)) = pl.agg :=
      u32add_roundtrip pl.agg qty haggM
    have hvrt : u32add (u32add (pl.vqty vid) (qty : ℤ)) (-(qty : ℤ)) = pl.vqty vid :=
      u32add_roundtrip (pl.vqty vid) qty hvM
    simp only [hagg, hvrt]
    rw [if_neg hagg0]
    congr 1
    refine SideBook.ext rfl rfl ?_
    rw [Function.update_idem, Function.update_idem]
    have : (⟨Function.update pl.vqty vid (pl.vqty vid), pl.agg⟩ : PriceLevel) = pl := by
      refine PriceLevel.ext ?_ rfl
      rw [Function.update_eq_self]
    rw [this, ← hc, Function.update_eq_self]

/-- The state produced by `on_add` after a successful venue lookup: the chosen
side book is mutated through `SideBook::add` and the order is recorded. -/
theorem OrderBook.on_add_state (ob : OrderBook) (oid : String) (c : Char) (vid : Fin 14)
    (side : String) (price : ℚ) (qty : ℕ) (hv : venue_of_code c = some vid) :
    (ob.on_add oid c side price qty).1 =
      { ob.setSide (side == "BID") ((ob.getSide (side == "BID")).add (p2i price) vid qty).1 with
        omap := ob.omap.insert oid ⟨side == "BID", p2i price, vid, qty⟩ } := by
  unfold OrderBook.on_add
  rw [hv]
  dsimp only
  split
  · split <;> simp [OrderBook.setSide_omap]
  · simp [OrderBook.setSide_omap]

/-- C6. On a well-formed tick (the tick-set membership matches level presence
and any present level has a nonzero, in-range aggregate and in-range venue
quantity), `on_add` of a not-live identifier followed by `on_cancel` of the
same identifier restores the order book exactly; the cancel returns cleanly. -/
theorem c6_add_cancel_restores (ob : OrderBook) (oid : String) (c : Char) (vid : Fin 14)
    (side : String) (price : ℚ) (qty : ℕ)
    (hv : venue_of_code c = some vid)
    (hoid : ob.omap.lookup oid = none)
    (htick : p2i price ∈ (ob.getSide (side == "BID")).ticks ↔
      ((ob.getSide (side == "BID")).levels (p2i price)).isSome)
    (hpl : ∀ pl, (ob.getSide (side == "BID")).levels (p2i price) = some pl →
      pl.agg ≠ 0 ∧ pl.agg < U32_MOD ∧ pl.vqty vid < U32_MOD) :
    (ob.on_add oid c side price qty).1.on_cancel oid = (ob, Except.ok ()) := by
  rw [OrderBook.on_add_state ob oid c vid side price qty hv]
  have hrt := SideBook.add_remove_roundtrip (ob.getSide (side == "BID")) (p2i price) vid qty
    htick hpl
  unfold OrderBook.on_cancel
  cases hB : (side == "BID") with
  | false =>
    rw [hB] at hrt
    rcases ob with ⟨bb, aa, om⟩
    simp only [OrderBook.setSide, OrderBook.getSide, Bool.false_eq_true, if_false] at hrt ⊢
    simp only [Finmap.lookup_insert]
    simp [hrt, Finmap.erase_insert_of_none om oid _ hoid]
  | true =>
    rw [hB] at hrt
    rcases ob with ⟨bb, aa, om⟩
    simp only [OrderBook.setSide, OrderBook.getSide, if_true] at hrt ⊢
    simp only [Finmap.lookup_insert]
    simp [hrt, Finmap.erase_insert_of_none om oid _ hoid]

/-- Witness for C6: add-then-cancel of `"a"` on the empty book restores the
empty book. -/
theorem c6_add_cancel_restores_witness :
    (OrderBook.init.on_add "a" 'C' "BID" 10 5).1.on_cancel "a"
      = (OrderBook.init, Except.ok ()) :=
  c6_add_cancel_restores OrderBook.init "a" 'C' 0 "BID" 10 5 venue_C
    (by simp [OrderBook.init])
    (by simp [OrderBook.init, OrderBook.getSide])
    (by simp [OrderBook.init, OrderBook.getSide])

/-! ### C10: a zero-quantity execution is a pure observation -/

theorem Finmap.insert_lookup_self {α : Type} [DecidableEq α] {β : α → Type}
    (s : Finmap β) (a : α) (b : β a) (h : s.lookup a = some b) :
    s.insert a b = s := by
  apply Finmap.ext_lookup
  intro x
  rcases eq_or_ne x a with rfl | hx
  · rw [Finmap.lookup_insert, h]
  · rw [Finmap.lookup_insert_of_ne _ hx]

/-- C10. For a live order with positive remaining quantity whose level is
present and well formed, `on_execute(oid, 0)` returns the report describing
the current level (price, aggregate, per-venue vector, venue string) and
leaves the book state — order index, remaining quantity, both side books —
bit-for-bit unchanged; the order stays live. -/
theorem c10_execute_zero_is_frame (ob : OrderBook) (oid : String) (m : OrderBook.Meta)
    (hm : ob.omap.lookup oid = some m)
    (hq : 0 < m.qty)
    (hlvl : ((ob.getSide m.bid).levels m.idx).isSome)
    (hpl : ∀ pl, (ob.getSide m.bid).levels m.idx = some pl →
      pl.agg ≠ 0 ∧ pl.agg < U32_MOD ∧ pl.vqty m.vid < U32_MOD) :
    ob.on_execute oid 0 = (ob, Except.ok (some
      ⟨i2p m.idx,
       (((ob.getSide m.bid).levels m.idx).getD PriceLevel.init).agg,
       (List.finRange 14).map (((ob.getSide m.bid).levels m.idx).getD PriceLevel.init).vqty,
       venue_string (((ob.getSide m.bid).levels m.idx).getD PriceLevel.init)⟩)) := by
  obtain ⟨pl, hc⟩ := Option.isSome_iff_exists.mp hlvl
  obtain ⟨hagg0, haggM, hvM⟩ := hpl pl hc
  have hm2 : ({ m with qty := m.qty - min 0 m.qty } : OrderBook.Meta) = m := by
    simp
  have hplrt : pl.adjust m.vid (-((min 0 m.qty : ℕ) : ℤ)) = pl := by
    unfold PriceLevel.adjust
    have e0 : min 0 m.qty = 0 := Nat.min_eq_left (Nat.zero_le _)
    rw [e0]
    have e1 : u32add (pl.vqty m.vid) (-((0 : ℕ) : ℤ)) = pl.vqty m.vid := by
      have := u32add_sub (pl.vqty m.vid) 0 (Nat.zero_le _) hvM
      simpa using this
    have e2 : u32add pl.agg (-((0 : ℕ) : ℤ)) = pl.agg := by
      have := u32add_sub pl.agg 0 (Nat.zero_le _) haggM
      simpa using this
    refine PriceLevel.ext ?_ ?_
    · simp only [Nat.cast_zero] at e1 ⊢
      rw [e1, Function.update_eq_self]
    · simpa using e2
  have hremove : (ob.getSide m.bid).remove m.idx m.vid (min 0 m.qty) = some (ob.getSide m.bid) := by
    unfold SideBook.remove
    rw [hc]
    dsimp only
    rw [hplrt, if_neg hagg0]
    congr 1
    refine SideBook.ext rfl rfl ?_
    rw [← hc, Function.update_eq_self]
  unfold OrderBook.on_execute
  rw [hm]
  dsimp only
  rw [hm2, Finmap.insert_lookup_self ob.omap oid m hm]
  have hob1 : ({ ob with omap := ob.omap } : OrderBook) = ob := rfl
  rw [hob1, hremove]
  dsimp only
  rw [hc]
  dsimp only
  rw [if_neg (by omega : ¬ m.qty - min 0 m.qty = 0)]
  rw [OrderBook.setSide_getSide]
  simp

/-- Witness for C10: a zero-quantity execution of the live order `"a"` on a
one-order book returns the level report and changes nothing. -/
theorem c10_execute_zero_is_frame_witness :
    oneOrderBook.on_execute "a" 0
    = (oneOrderBook, Except.ok (some
        ⟨i2p (1000 : ℤ),
         (((oneOrderBook.getSide true).levels 1000).getD PriceLevel.init).agg,
         (List.finRange 14).map (((oneOrderBook.getSide true).levels 1000).getD PriceLevel.init).vqty,
         venue_string (((oneOrderBook.getSide true).levels 1000).getD PriceLevel.init)⟩)) :=
  c10_execute_zero_is_frame oneOrderBook "a" ⟨true, 1000, 0, 2⟩ (by decide) (by decide) (by decide)
    (by intro pl h
        injection h with h
        subst h
        exact ⟨by decide, by decide, by decide⟩)

/-! ### C7: entries and order-sum lemmas -/

theorem List.perm_cons_kerase_of_dlookup {α : Type} [DecidableEq α] {β : α → Type}
    {l : List (Sigma β)} {a : α} {b : β a} (h : l.dlookup a = some b) :
    l.Perm (⟨a, b⟩ :: l.kerase a) := by
  induction l with
  | nil => simp at h
  | cons e l ih =>
    rcases e with ⟨a1, b1⟩
    by_cases he : a = a1
    · subst he
      rw [List.dlookup_cons_eq] at h
      injection h with h
      subst h
      have hk : List.kerase a (⟨a, b1⟩ :: l) = l := List.kerase_cons_eq rfl
      rw [hk]
    · rw [List.dlookup_cons_ne _ _ he] at h
      have hk : List.kerase a (⟨a1, b1⟩ :: l) = ⟨a1, b1⟩ :: List.kerase a l :=
        List.kerase_cons_ne he
      rw [hk]
      exact ((ih h).cons _).trans
        (List.Perm.swap (Sigma.mk a b) (Sigma.mk a1 b1) (List.kerase a l))

theorem Finmap.entries_insert_erase {α : Type} [DecidableEq α] {β : α → Type}
    (s : Finmap β) (a : α) (b : β a) :
    (s.insert a b).entries = ⟨a, b⟩ ::ₘ (s.erase a).entries := by
  refine Finmap.induction_on s fun s => ?_
  rw [Finmap.insert_toFinmap, Finmap.erase_toFinmap]
  rw [AList.toFinmap_entries, AList.toFinmap_entries]
  simp [AList.insert_entries, AList.erase]

theorem Finmap.entries_cons_erase {α : Type} [DecidableEq α] {β : α → Type}
    (s : Finmap β) (a : α) (b : β a) (h : s.lookup a = some b) :
    s.entries = ⟨a, b⟩ ::ₘ (s.erase a).entries := by
  revert h
  refine Finmap.induction_on s fun s => ?_
  intro h
  rw [Finmap.lookup_toFinmap] at h
  rw [Finmap.erase_toFinmap, AList.toFinmap_entries, AList.toFinmap_entries]
  have hp := List.perm_cons_kerase_of_dlookup (l := s.entries) (a := a) (b := b) h
  exact Quot.sound hp

theorem Finmap.erase_eq_self_of_none {α : Type} [DecidableEq α] {β : α → Type}
    (s : Finmap β) (a : α) (h : s.lookup a = none) : s.erase a = s := by
  apply Finmap.ext_lookup
  intro x
  rcases eq_or_ne x a with rfl | hx
  · rw [Finmap.lookup_erase, h]
  · rw [Finmap.lookup_erase_ne hx]

theorem Finmap.erase_insert_self {α : Type} [DecidableEq α] {β : α → Type}
    (s : Finmap β) (a : α) (b : β a) : (s.insert a b).erase a = s.erase a := by
  apply Finmap.ext_lookup
  intro x
  rcases eq_or_ne x a with rfl | hx
  · rw [Finmap.lookup_erase, Finmap.lookup_erase]
  · rw [Finmap.lookup_erase_ne hx, Finmap.lookup_erase_ne hx,
      Finmap.lookup_insert_of_ne _ hx]

theorem orderSum_insert (om : Finmap fun _ : String => OrderBook.Meta)
    (oid : String) (m : OrderBook.Meta) (b : Bool) (t : ℤ) (v : Fin 14) :
    orderSum (om.insert oid m) b t v
      = metaContrib m b t v + orderSum (om.erase oid) b t v := by
  unfold orderSum metaContrib
  rw [Finmap.entries_insert_erase]
  simp

theorem orderSum_lookup_decomp (om : Finmap fun _ : String => OrderBook.Meta)
    (oid : String) (m : OrderBook.Meta) (h : om.lookup oid = some m)
    (b : Bool) (t : ℤ) (v : Fin 14) :
    orderSum om b t v = metaContrib m b t v + orderSum (om.erase oid) b t v := by
  unfold orderSum metaContrib
  rw [Finmap.entries_cons_erase om oid m h]
  simp

theorem sum_update_fin (f : Fin 14 → ℕ) (v : Fin 14) (x : ℕ) :
    (∑ w, Function.update f v x w) + f v = (∑ w, f w) + x := by
  rw [Finset.sum_update_of_mem (Finset.mem_univ v)]
  have h2 := Finset.add_sum_erase Finset.univ f (Finset.mem_univ v)
  rw [Finset.sdiff_singleton_eq_erase]
  omega

theorem single_le_sum_fin (f : Fin 14 → ℕ) (v : Fin 14) : f v ≤ ∑ w, f w :=
  Finset.single_le_sum (fun i _ => Nat.zero_le (f i)) (Finset.mem_univ v)

theorem pair_le_sum_fin (f : Fin 14 → ℕ) (v w : Fin 14) (h : v ≠ w) :
    f v + f w ≤ ∑ u, f u := by
  have h1 := Finset.add_sum_erase Finset.univ f (Finset.mem_univ v)
  have h2 : f w ≤ ∑ u ∈ Finset.univ.erase v, f u :=
    Finset.single_le_sum (fun i _ => Nat.zero_le (f i))
      (Finset.mem_erase.mpr ⟨h.symm, Finset.mem_univ w⟩)
  omega

/-! Characterizations of `SideBook::add` and `SideBook::remove` in the
no-overflow regime. -/

theorem SideBook.add_absent (sb : SideBook) (idx : ℤ) (vid : Fin 14) (qty : ℕ)
    (hc : sb.levels idx = none) (hq : qty < U32_MOD) :
    (sb.add idx vid qty).1 = ⟨sb.is_bid, insert idx sb.ticks,
      Function.update sb.levels idx
        (some ⟨Function.update (fun _ => 0) vid qty, qty⟩)⟩ := by
  have e : u32add 0 (qty : ℤ) = qty := by
    have := u32add_nat 0 qty (by omega)
    simpa using this
  unfold SideBook.add PriceLevel.adjust PriceLevel.init
  simp only [hc, Option.getD_none]
  simp [e]

theorem SideBook.add_present (sb : SideBook) (idx : ℤ) (vid : Fin 14) (qty : ℕ)
    (pl : PriceLevel) (hc : sb.levels idx = some pl) (hagg : 0 < pl.agg)
    (hv : pl.vqty vid + qty < U32_MOD) (ha : pl.agg + qty < U32_MOD) :
    (sb.add idx vid qty).1 = ⟨sb.is_bid, sb.ticks,
      Function.update sb.levels idx
        (some ⟨Function.update pl.vqty vid (pl.vqty vid + qty), pl.agg + qty⟩)⟩ := by
  unfold SideBook.add PriceLevel.adjust
  simp only [hc, Option.getD_some]
  rw [if_neg (by omega : ¬ pl.agg = 0)]
  rw [u32add_nat _ _ hv, u32add_nat _ _ ha]

theorem SideBook.remove_deplete (sb : SideBook) (idx : ℤ) (vid : Fin 14) (qty : ℕ)
    (pl : PriceLevel) (hc : sb.levels idx = some pl)
    (hagg : pl.agg < U32_MOD) (hd : pl.agg = qty) :
    sb.remove idx vid qty = some ⟨sb.is_bid, sb.ticks.erase idx,
      Function.update sb.levels idx none⟩ := by
  unfold SideBook.remove PriceLevel.adjust
  simp only [hc]
  rw [u32add_sub pl.agg qty (by omega) hagg]
  rw [if_pos (by omega : pl.agg - qty = 0)]

theorem SideBook.remove_partial (sb : SideBook) (idx : ℤ) (vid : Fin 14) (qty : ℕ)
    (pl : PriceLevel) (hc : sb.levels idx = some pl)
    (hagg : pl.agg < U32_MOD) (hvlt : pl.vqty vid < U32_MOD)
    (hq : qty ≤ pl.vqty vid) (hd : qty < pl.agg) :
    sb.remove idx vid qty = some ⟨sb.is_bid, sb.ticks,
      Function.update sb.levels idx
        (some ⟨Function.update pl.vqty vid (pl.vqty vid - qty), pl.agg - qty⟩)⟩ := by
  unfold SideBook.remove PriceLevel.adjust
  simp only [hc]
  rw [u32add_sub pl.agg qty (by omega) hagg, u32add_sub _ _ hq hvlt]
  rw [if_neg (by omega : ¬ pl.agg - qty = 0)]

theorem OrderBook.getSide_setSide_full (ob : OrderBook) (b0 : Bool) (sb : SideBook) (b : Bool) :
    (ob.setSide b0 sb).getSide b = if b = b0 then sb else ob.getSide b := by
  cases b <;> cases b0 <;> simp [OrderBook.setSide, OrderBook.getSide]

theorem OrderBook.getSide_omap_set (ob : OrderBook)
    (om' : Finmap fun _ : String => OrderBook.Meta) (b : Bool) :
    ({ ob with omap := om' } : OrderBook).getSide b = ob.getSide b := rfl

theorem levelVqty_omap_set (ob : OrderBook)
    (om' : Finmap fun _ : String => OrderBook.Meta) (b : Bool) (t : ℤ) (v : Fin 14) :
    levelVqty ({ ob with omap := om' } : OrderBook) b t v = levelVqty ob b t v := rfl

theorem metaContrib_self (m : OrderBook.Meta) :
    metaContrib m m.bid m.idx m.vid = m.qty := by
  unfold metaContrib
  rw [if_pos ⟨rfl, rfl, rfl⟩]

theorem metaContrib_le (m : OrderBook.Meta) (b : Bool) (t : ℤ) (v : Fin 14) :
    metaContrib m b t v ≤ m.qty := by
  unfold metaContrib
  split <;> omega

theorem metaContrib_ne (m : OrderBook.Meta) (b : Bool) (t : ℤ) (v : Fin 14)
    (h : ¬(m.bid = b ∧ m.idx = t)) : metaContrib m b t v = 0 := by
  unfold metaContrib
  rw [if_neg (by tauto)]

theorem orderSum_erase (om : Finmap fun _ : String => OrderBook.Meta)
    (oid : String) (m : OrderBook.Meta) (h : om.lookup oid = some m)
    (b : Bool) (t : ℤ) (v : Fin 14) :
    orderSum (om.erase oid) b t v = orderSum om b t v - metaContrib m b t v := by
  have hd := orderSum_lookup_decomp om oid m h b t v
  omega

/-- Assemble the invariant of a state that replaces one side book and the
order index of an invariant-satisfying book. -/
theorem OrderBook.Inv_assemble (ob : OrderBook) (b0 : Bool) (sb' : SideBook)
    (om' : Finmap fun _ : String => OrderBook.Meta)
    (hflag : ∀ b, (ob.getSide b).is_bid = b)
    (hwf : ∀ b, (ob.getSide b).WF)
    (hflag' : sb'.is_bid = b0) (hwf' : sb'.WF)
    (hsums : ∀ b t v,
      (((if b = b0 then sb' else ob.getSide b).levels t).getD PriceLevel.init).vqty v
        = orderSum om' b t v) :
    (({ ob with omap := om' } : OrderBook).setSide b0 sb').Inv := by
  have hget : ∀ b, ((({ ob with omap := om' } : OrderBook).setSide b0 sb').getSide b)
      = if b = b0 then sb' else ob.getSide b := by
    intro b
    rw [OrderBook.getSide_setSide_full]
    rcases eq_or_ne b b0 with rfl | hb
    · simp
    · simp [hb, OrderBook.getSide_omap_set]
  have homap : (({ ob with omap := om' } : OrderBook).setSide b0 sb').omap = om' := by
    rw [OrderBook.setSide_omap]
  refine ⟨?_, ?_, ?_⟩
  · intro b
    rw [hget]
    rcases eq_or_ne b b0 with rfl | hb
    · simpa using hflag'
    · simpa [hb] using hflag b
  · intro b
    rw [hget]
    rcases eq_or_ne b b0 with rfl | hb
    · simpa using hwf'
    · simpa [hb] using hwf b
  · intro b t v
    rw [homap]
    unfold levelVqty
    rw [hget]
    exact hsums b t v

/-- Assemble the invariant of a state that replaces only the order index. -/
theorem OrderBook.Inv_omap_set (ob : OrderBook)
    (om' : Finmap fun _ : String => OrderBook.Meta)
    (hflag : ∀ b, (ob.getSide b).is_bid = b)
    (hwf : ∀ b, (ob.getSide b).WF)
    (hsums : ∀ b t v, levelVqty ob b t v = orderSum om' b t v) :
    ({ ob with omap := om' } : OrderBook).Inv := by
  refine ⟨?_, ?_, ?_⟩
  · intro b
    rw [OrderBook.getSide_omap_set]
    exact hflag b
  · intro b
    rw [OrderBook.getSide_omap_set]
    exact hwf b
  · intro b t v
    rw [levelVqty_omap_set]
    exact hsums b t v

set_option maxHeartbeats 1000000 in
/-- `on_cancel` preserves the invariant, for any identifier. -/
theorem OrderBook.Inv_cancel (ob : OrderBook) (oid : String) (h : ob.Inv) :
    (ob.on_cancel oid).1.Inv := by
  obtain ⟨hflag, hwf, hsum⟩ := h
  unfold OrderBook.on_cancel
  cases hm : ob.omap.lookup oid with
  | none => exact ⟨hflag, hwf, hsum⟩
  | some m =>
    obtain ⟨hticks, hlvls⟩ := hwf m.bid
    have hkey : m.qty ≤ orderSum ob.omap m.bid m.idx m.vid := by
      have h1 := orderSum_lookup_decomp ob.omap oid m hm m.bid m.idx m.vid
      rw [metaContrib_self] at h1
      omega
    have hkey2 : m.qty ≤ levelVqty ob m.bid m.idx m.vid := by
      rw [hsum m.bid m.idx m.vid]
      exact hkey
    cases hc : (ob.getSide m.bid).levels m.idx with
    | none =>
      have hq0 : m.qty = 0 := by
        have hval : levelVqty ob m.bid m.idx m.vid = 0 := by
          unfold levelVqty
          rw [hc]
          rfl
        omega
      have hrem : (ob.getSide m.bid).remove m.idx m.vid m.qty = none := by
        unfold SideBook.remove
        rw [hc]
      have hfin : ({ ob with omap := ob.omap.erase oid } : OrderBook).Inv := by
        refine OrderBook.Inv_omap_set ob (ob.omap.erase oid) hflag hwf ?_
        intro b t v
        rw [orderSum_erase ob.omap oid m hm b t v]
        have h2 := metaContrib_le m b t v
        have h3 := hsum b t v
        omega
      dsimp only
      simp only [OrderBook.getSide_omap_set]
      rw [hrem]
      exact hfin
    | some pl =>
      obtain ⟨hplsum, hplpos, hplU⟩ := hlvls m.idx pl hc
      have hvq : ∀ v, levelVqty ob m.bid m.idx v = pl.vqty v := by
        intro v
        unfold levelVqty
        rw [hc]
        rfl
      have haggU : pl.agg < U32_MOD := by omega
      have hqle : m.qty ≤ pl.vqty m.vid := by
        have h5 := hkey2
        rw [hvq m.vid] at h5
        exact h5
      have hvle : pl.vqty m.vid ≤ pl.agg := by
        rw [hplsum]
        exact single_le_sum_fin pl.vqty m.vid
      by_cases hdep : pl.agg = m.qty
      · have hWF2 : (SideBook.mk (ob.getSide m.bid).is_bid
            ((ob.getSide m.bid).ticks.erase m.idx)
            (Function.update (ob.getSide m.bid).levels m.idx none)).WF := by
          constructor
          · intro t
            dsimp only
            rcases eq_or_ne t m.idx with rfl | ht
            · simp
            · rw [Function.update_noteq ht, Finset.mem_erase]
              have h7 := hticks t
              exact ⟨fun hh => h7.mp hh.2, fun hh => ⟨ht, h7.mpr hh⟩⟩
          · intro t pl' hpl'
            dsimp only at hpl'
            rcases eq_or_ne t m.idx with rfl | ht
            · rw [Function.update_same] at hpl'
              cases hpl'
            · rw [Function.update_noteq ht] at hpl'
              exact hlvls t pl' hpl'
        have hsums2 : ∀ b t v,
            (((if b = m.bid then (SideBook.mk (ob.getSide m.bid).is_bid
                ((ob.getSide m.bid).ticks.erase m.idx)
                (Function.update (ob.getSide m.bid).levels m.idx none))
              else ob.getSide b).levels t).getD PriceLevel.init).vqty v
              = orderSum (ob.omap.erase oid) b t v := by
          intro b t v
          rw [orderSum_erase ob.omap oid m hm b t v]
          by_cases hb : b = m.bid
          · subst hb
            rw [if_pos rfl]
            dsimp only
            by_cases ht : t = m.idx
            · subst ht
              rw [Function.update_same]
              have hR := hsum m.bid m.idx v
              rw [hvq v] at hR
              by_cases hv : v = m.vid
              · subst hv
                rw [metaContrib_self]
                have hz : (PriceLevel.init.vqty m.vid : ℕ) = 0 := rfl
                simp only [Option.getD_none]
                omega
              · have hcontrib : metaContrib m m.bid m.idx v = 0 := by
                  unfold metaContrib
                  rw [if_neg]
                  rintro ⟨-, -, hh⟩
                  exact hv hh.symm
                have hpair := pair_le_sum_fin pl.vqty m.vid v (fun hh => hv hh.symm)
                have hz : (PriceLevel.init.vqty v : ℕ) = 0 := rfl
                simp only [Option.getD_none]
                omega
            · rw [Function.update_noteq ht]
              have hcontrib : metaContrib m m.bid t v = 0 :=
                metaContrib_ne m m.bid t v (fun hh => ht hh.2.symm)
              have hR := hsum m.bid t v
              unfold levelVqty at hR
              omega
          · rw [if_neg hb]
            have hcontrib : metaContrib m b t v = 0 :=
              metaContrib_ne m b t v (fun hh => hb hh.1.symm)
            have hR := hsum b t v
            unfold levelVqty at hR
            omega
        have hfin := OrderBook.Inv_assemble ob m.bid
          (SideBook.mk (ob.getSide m.bid).is_bid
            ((ob.getSide m.bid).ticks.erase m.idx)
            (Function.update (ob.getSide m.bid).levels m.idx none))
          (ob.omap.erase oid) hflag hwf (hflag m.bid) hWF2 hsums2
        dsimp only
        simp only [OrderBook.getSide_omap_set]
        rw [SideBook.remove_deplete (ob.getSide m.bid) m.idx m.vid m.qty pl hc haggU hdep]
        exact hfin
      · have hlt : m.qty < pl.agg := by omega
        have hvU : pl.vqty m.vid < U32_MOD := by omega
        have hWF2 : (SideBook.mk (ob.getSide m.bid).is_bid (ob.getSide m.bid).ticks
            (Function.update (ob.getSide m.bid).levels m.idx
              (some ⟨Function.update pl.vqty m.vid (pl.vqty m.vid - m.qty),
                pl.agg - m.qty⟩))).WF := by
          constructor
          · intro t
            dsimp only
            rcases eq_or_ne t m.idx with rfl | ht
            · rw [Function.update_same]
              have h6 := hticks m.idx
              rw [hc] at h6
              simpa using h6
            · rw [Function.update_noteq ht]
              exact hticks t
          · intro t pl' hpl'
            dsimp only at hpl'
            rcases eq_or_ne t m.idx with rfl | ht
            · rw [Function.update_same] at hpl'
              injection hpl' with hpl'
              subst hpl'
              have hs := sum_update_fin pl.vqty m.vid (pl.vqty m.vid - m.qty)
              exact ⟨by dsimp only; omega, by dsimp only; omega, by dsimp only; omega⟩
            · rw [Function.update_noteq ht] at hpl'
              exact hlvls t pl' hpl'
        have hsums2 : ∀ b t v,
            (((if b = m.bid then (SideBook.mk (ob.getSide m.bid).is_bid
                (ob.getSide m.bid).ticks
                (Function.update (ob.getSide m.bid).levels m.idx
                  (some ⟨Function.update pl.vqty m.vid (pl.vqty m.vid - m.qty),
                    pl.agg - m.qty⟩)))
              else ob.getSide b).levels t).getD PriceLevel.init).vqty v
              = orderSum (ob.omap.erase oid) b t v := by
          intro b t v
          rw [orderSum_erase ob.omap oid m hm b t v]
          by_cases hb : b = m.bid
          · subst hb
            rw [if_pos rfl]
            dsimp only
            by_cases ht : t = m.idx
            · subst ht
              rw [Function.update_same]
              have hR := hsum m.bid m.idx v
              rw [hvq v] at hR
              simp only [Option.getD_some]
              by_cases hv : v = m.vid
              · subst hv
                rw [metaContrib_self]
                rw [Function.update_same]
                omega
              · have hcontrib : metaContrib m m.bid m.idx v = 0 := by
                  unfold metaContrib
                  rw [if_neg]
                  rintro ⟨-, -, hh⟩
                  exact hv hh.symm
                rw [Function.update_noteq hv]
                omega
            · rw [Function.update_noteq ht]
              have hcontrib : metaContrib m m.bid t v = 0 :=
                metaContrib_ne m m.bid t v (fun hh => ht hh.2.symm)
              have hR := hsum m.bid t v
              unfold levelVqty at hR
              omega
          · rw [if_neg hb]
            have hcontrib : metaContrib m b t v = 0 :=
              metaContrib_ne m b t v (fun hh => hb hh.1.symm)
            have hR := hsum b t v
            unfold levelVqty at hR
            omega
        have hfin := OrderBook.Inv_assemble ob m.bid
          (SideBook.mk (ob.getSide m.bid).is_bid (ob.getSide m.bid).ticks
            (Function.update (ob.getSide m.bid).levels m.idx
              (some ⟨Function.update pl.vqty m.vid (pl.vqty m.vid - m.qty),
                pl.agg - m.qty⟩)))
          (ob.omap.erase oid) hflag hwf (hflag m.bid) hWF2 hsums2
        dsimp only
        simp only [OrderBook.getSide_omap_set]
        rw [SideBook.remove_partial (ob.getSide m.bid) m.idx m.vid m.qty pl hc haggU hvU hqle hlt]
        exact hfin

theorem OrderBook.setSide_omap_comm (ob : OrderBook) (b : Bool) (sb : SideBook)
    (om' : Finmap fun _ : String => OrderBook.Meta) :
    ({ ob.setSide b sb with omap := om' } : OrderBook)
      = ({ ob with omap := om' } : OrderBook).setSide b sb := by
  cases b <;> simp [OrderBook.setSide]

set_option maxHeartbeats 1000000 in
/-- `on_add` of a fresh identifier with positive, non-overflowing quantity and
a recognized venue preserves the invariant. -/
theorem OrderBook.Inv_add (ob : OrderBook) (oid : String) (c : Char) (vid : Fin 14)
    (side : String) (price : ℚ) (qty : ℕ) (h : ob.Inv)
    (hv : venue_of_code c = some vid) (hq : 0 < qty)
    (hfresh : ob.omap.lookup oid = none)
    (hbound : levelSum (ob.getSide (side == "BID")) (p2i price) + qty < U32_MOD) :
    (ob.on_add oid c side price qty).1.Inv := by
  obtain ⟨hflag, hwf, hsum⟩ := h
  rw [OrderBook.on_add_state ob oid c vid side price qty hv,
    OrderBook.setSide_omap_comm]
  obtain ⟨hticks, hlvls⟩ := hwf (side == "BID")
  have herase : ob.omap.erase oid = ob.omap :=
    Finmap.erase_eq_self_of_none ob.omap oid hfresh
  cases hc : (ob.getSide (side == "BID")).levels (p2i price) with
  | none =>
    have hq32 : qty < U32_MOD := by omega
    rw [SideBook.add_absent (ob.getSide (side == "BID")) (p2i price) vid qty hc hq32]
    have hWF2 : (SideBook.mk (ob.getSide (side == "BID")).is_bid
        (insert (p2i price) (ob.getSide (side == "BID")).ticks)
        (Function.update (ob.getSide (side == "BID")).levels (p2i price)
          (some ⟨Function.update (fun _ => 0) vid qty, qty⟩))).WF := by
      constructor
      · intro t
        dsimp only
        rcases eq_or_ne t (p2i price) with rfl | ht
        · simp
        · rw [Function.update_noteq ht, Finset.mem_insert]
          have h7 := hticks t
          constructor
          · rintro (rfl | hh)
            · exact absurd rfl ht
            · exact h7.mp hh
          · intro hh
            exact Or.inr (h7.mpr hh)
      · intro t pl' hpl'
        dsimp only at hpl'
        rcases eq_or_ne t (p2i price) with rfl | ht
        · rw [Function.update_same] at hpl'
          injection hpl' with hpl'
          subst hpl'
          have hs := sum_update_fin (fun _ => 0) vid qty
          rw [Finset.sum_const_zero] at hs
          exact ⟨by dsimp only; omega, by dsimp only; omega, by dsimp only; omega⟩
        · rw [Function.update_noteq ht] at hpl'
          exact hlvls t pl' hpl'
    have hsums2 : ∀ b t v,
        (((if b = (side == "BID") then (SideBook.mk (ob.getSide (side == "BID")).is_bid
            (insert (p2i price) (ob.getSide (side == "BID")).ticks)
            (Function.update (ob.getSide (side == "BID")).levels (p2i price)
              (some ⟨Function.update (fun _ => 0) vid qty, qty⟩)))
          else ob.getSide b).levels t).getD PriceLevel.init).vqty v
          = orderSum (ob.omap.insert oid ⟨side == "BID", p2i price, vid, qty⟩) b t v := by
      intro b t v
      rw [orderSum_insert, herase]
      by_cases hb : b = (side == "BID")
      · subst hb
        rw [if_pos rfl]
        dsimp only
        by_cases ht : t = p2i price
        · subst ht
          rw [Function.update_same]
          have hR := hsum (side == "BID") (p2i price) v
          have hz : levelVqty ob (side == "BID") (p2i price) v = 0 := by
            unfold levelVqty
            rw [hc]
            rfl
          simp only [Option.getD_some]
          by_cases hvv : v = vid
          · subst hvv
            rw [Function.update_same]
            have hcontrib : metaContrib ⟨side == "BID", p2i price, v, qty⟩
                (side == "BID") (p2i price) v = qty := by
              unfold metaContrib
              rw [if_pos ⟨rfl, rfl, rfl⟩]
            omega
          · rw [Function.update_noteq hvv]
            have hcontrib : metaContrib ⟨side == "BID", p2i price, vid, qty⟩
                (side == "BID") (p2i price) v = 0 := by
              unfold metaContrib
              rw [if_neg]
              rintro ⟨-, -, hh⟩
              exact hvv hh.symm
            have hbeta : (fun _ : Fin 14 => (0 : ℕ)) v = 0 := rfl
            omega
        · rw [Function.update_noteq ht]
          have hR := hsum (side == "BID") t v
          unfold levelVqty at hR
          have hcontrib : metaContrib ⟨side == "BID", p2i price, vid, qty⟩
              (side == "BID") t v = 0 := by
            unfold metaContrib
            rw [if_neg]
            rintro ⟨-, hh, -⟩
            exact ht hh.symm
          omega
      · rw [if_neg hb]
        have hR := hsum b t v
        unfold levelVqty at hR
        have hcontrib : metaContrib ⟨side == "BID", p2i price, vid, qty⟩ b t v = 0 := by
          unfold metaContrib
          rw [if_neg]
          rintro ⟨hh, -, -⟩
          exact hb hh.symm
        omega
    exact OrderBook.Inv_assemble ob (side == "BID") _ _ hflag hwf
      (hflag (side == "BID")) hWF2 hsums2
  | some pl =>
    obtain ⟨hplsum, hplpos, hplU⟩ := hlvls (p2i price) pl hc
    have hls : levelSum (ob.getSide (side == "BID")) (p2i price) = ∑ v, pl.vqty v := by
      unfold levelSum
      rw [hc]
      rfl
    have hvle : pl.vqty vid ≤ ∑ v, pl.vqty v := single_le_sum_fin pl.vqty vid
    have hv32 : pl.vqty vid + qty < U32_MOD := by omega
    have ha32 : pl.agg + qty < U32_MOD := by omega
    rw [SideBook.add_present (ob.getSide (side == "BID")) (p2i price) vid qty pl hc
      hplpos hv32 ha32]
    have hWF2 : (SideBook.mk (ob.getSide (side == "BID")).is_bid
        (ob.getSide (side == "BID")).ticks
        (Function.update (ob.getSide (side == "BID")).levels (p2i price)
          (some ⟨Function.update pl.vqty vid (pl.vqty vid + qty), pl.agg + qty⟩))).WF := by
      constructor
      · intro t
        dsimp only
        rcases eq_or_ne t (p2i price) with rfl | ht
        · rw [Function.update_same]
          have h7 := hticks (p2i price)
          rw [hc] at h7
          simpa using h7
        · rw [Function.update_noteq ht]
          exact hticks t
      · intro t pl' hpl'
        dsimp only at hpl'
        rcases eq_or_ne t (p2i price) with rfl | ht
        · rw [Function.update_same] at hpl'
          injection hpl' with hpl'
          subst hpl'
          have hs := sum_update_fin pl.vqty vid (pl.vqty vid + qty)
          exact ⟨by dsimp only; omega, by dsimp only; omega, by dsimp only; omega⟩
        · rw [Function.update_noteq ht] at hpl'
          exact hlvls t pl' hpl'
    have hsums2 : ∀ b t v,
        (((if b = (side == "BID") then (SideBook.mk (ob.getSide (side == "BID")).is_bid
            (ob.getSide (side == "BID")).ticks
            (Function.update (ob.getSide (side == "BID")).levels (p2i price)
              (some ⟨Function.update pl.vqty vid (pl.vqty vid + qty), pl.agg + qty⟩)))
          else ob.getSide b).levels t).getD PriceLevel.init).vqty v
          = orderSum (ob.omap.insert oid ⟨side == "BID", p2i price, vid, qty⟩) b t v := by
      intro b t v
      rw [orderSum_insert, herase]
      by_cases hb : b = (side == "BID")
      · subst hb
        rw [if_pos rfl]
        dsimp only
        by_cases ht : t = p2i price
        · subst ht
          rw [Function.update_same]
          have hR := hsum (side == "BID") (p2i price) v
          have hz : levelVqty ob (side == "BID") (p2i price) v = pl.vqty v := by
            unfold levelVqty
            rw [hc]
            rfl
          simp only [Option.getD_some]
          by_cases hvv : v = vid
          · subst hvv
            rw [Function.update_same]
            have hcontrib : metaContrib ⟨side == "BID", p2i price, v, qty⟩
                (side == "BID") (p2i price) v = qty := by
              unfold metaContrib
              rw [if_pos ⟨rfl, rfl, rfl⟩]
            omega
          · rw [Function.update_noteq hvv]
            have hcontrib : metaContrib ⟨side == "BID", p2i price, vid, qty⟩
                (side == "BID") (p2i price) v = 0 := by
              unfold metaContrib
              rw [if_neg]
              rintro ⟨-, -, hh⟩
              exact hvv hh.symm
            omega
        · rw [Function.update_noteq ht]
          have hR := hsum (side == "BID") t v
          unfold levelVqty at hR
          have hcontrib : metaContrib ⟨side == "BID", p2i price, vid, qty⟩
              (side == "BID") t v = 0 := by
            unfold metaContrib
            rw [if_neg]
            rintro ⟨-, hh, -⟩
            exact ht hh.symm
          omega
      · rw [if_neg hb]
        have hR := hsum b t v
        unfold levelVqty at hR
        have hcontrib : metaContrib ⟨side == "BID", p2i price, vid, qty⟩ b t v = 0 := by
          unfold metaContrib
          rw [if_neg]
          rintro ⟨hh, -, -⟩
          exact hb hh.symm
        omega
    exact OrderBook.Inv_assemble ob (side == "BID") _ _ hflag hwf
      (hflag (side == "BID")) hWF2 hsums2

theorem OrderBook.omap_overwrite (ob : OrderBook) (b : Bool) (sb : SideBook)
    (omA omB : Finmap fun _ : String => OrderBook.Meta) :
    ({ ({ ob with omap := omA } : OrderBook).setSide b sb with omap := omB } : OrderBook)
      = ({ ob with omap := omB } : OrderBook).setSide b sb := by
  cases b <;> simp [OrderBook.setSide]

set_option maxHeartbeats 1000000 in
/-- `on_execute` preserves the invariant, for any identifier and quantity. -/
theorem OrderBook.Inv_execute (ob : OrderBook) (oid : String) (q : ℕ) (h : ob.Inv) :
    (ob.on_execute oid q).1.Inv := by
  obtain ⟨hflag, hwf, hsum⟩ := h
  unfold OrderBook.on_execute
  cases hm : ob.omap.lookup oid with
  | none => exact ⟨hflag, hwf, hsum⟩
  | some m =>
    obtain ⟨hticks, hlvls⟩ := hwf m.bid
    have htake : min q m.qty ≤ m.qty := Nat.min_le_right q m.qty
    have hkey : m.qty ≤ orderSum ob.omap m.bid m.idx m.vid := by
      have h1 := orderSum_lookup_decomp ob.omap oid m hm m.bid m.idx m.vid
      rw [metaContrib_self] at h1
      omega
    have hkey2 : m.qty ≤ levelVqty ob m.bid m.idx m.vid := by
      rw [hsum m.bid m.idx m.vid]
      exact hkey
    have hA : ∀ b t v,
        orderSum (ob.omap.insert oid ⟨m.bid, m.idx, m.vid, m.qty - min q m.qty⟩) b t v
          = metaContrib ⟨m.bid, m.idx, m.vid, m.qty - min q m.qty⟩ b t v
            + (orderSum ob.omap b t v - metaContrib m b t v) := by
      intro b t v
      rw [orderSum_insert, orderSum_erase ob.omap oid m hm b t v]
    cases hc : (ob.getSide m.bid).levels m.idx with
    | none =>
      have hq0 : m.qty = 0 := by
        have hval : levelVqty ob m.bid m.idx m.vid = 0 := by
          unfold levelVqty
          rw [hc]
          rfl
        omega
      have hrem : (ob.getSide m.bid).remove m.idx m.vid (min q m.qty) = none := by
        unfold SideBook.remove
        rw [hc]
      have hfin : ({ ob with
          omap := ob.omap.insert oid ⟨m.bid, m.idx, m.vid, m.qty - min q m.qty⟩ } :
            OrderBook).Inv := by
        refine OrderBook.Inv_omap_set ob _ hflag hwf ?_
        intro b t v
        rw [hA b t v]
        have h2 := metaContrib_le m b t v
        have h3 := metaContrib_le ⟨m.bid, m.idx, m.vid, m.qty - min q m.qty⟩ b t v
        have h4 := hsum b t v
        have hproj : (⟨m.bid, m.idx, m.vid, m.qty - min q m.qty⟩ : OrderBook.Meta).qty
            = m.qty - min q m.qty := rfl
        omega
      dsimp only
      simp only [OrderBook.getSide_omap_set]
      rw [hrem]
      exact hfin
    | some pl =>
      obtain ⟨hplsum, hplpos, hplU⟩ := hlvls m.idx pl hc
      have hvq : ∀ v, levelVqty ob m.bid m.idx v = pl.vqty v := by
        intro v
        unfold levelVqty
        rw [hc]
        rfl
      have haggU : pl.agg < U32_MOD := by omega
      have hqle : m.qty ≤ pl.vqty m.vid := by
        have h5 := hkey2
        rw [hvq m.vid] at h5
        exact h5
      have hvle : pl.vqty m.vid ≤ pl.agg := by
        rw [hplsum]
        exact single_le_sum_fin pl.vqty m.vid
      have htle : min q m.qty ≤ pl.vqty m.vid := le_trans htake hqle
      by_cases hdep : pl.agg = min q m.qty
      · have hWF2 : (SideBook.mk (ob.getSide m.bid).is_bid
            ((ob.getSide m.bid).ticks.erase m.idx)
            (Function.update (ob.getSide m.bid).levels m.idx none)).WF := by
          constructor
          · intro t
            dsimp only
            rcases eq_or_ne t m.idx with rfl | ht
            · simp
            · rw [Function.update_noteq ht, Finset.mem_erase]
              have h7 := hticks t
              exact ⟨fun hh => h7.mp hh.2, fun hh => ⟨ht, h7.mpr hh⟩⟩
          · intro t pl' hpl'
            dsimp only at hpl'
            rcases eq_or_ne t m.idx with rfl | ht
            · rw [Function.update_same] at hpl'
              cases hpl'
            · rw [Function.update_noteq ht] at hpl'
              exact hlvls t pl' hpl'
        have hsums2 : ∀ b t v,
            (((if b = m.bid then (SideBook.mk (ob.getSide m.bid).is_bid
                ((ob.getSide m.bid).ticks.erase m.idx)
                (Function.update (ob.getSide m.bid).levels m.idx none))
              else ob.getSide b).levels t).getD PriceLevel.init).vqty v
              = orderSum (ob.omap.insert oid
                  ⟨m.bid, m.idx, m.vid, m.qty - min q m.qty⟩) b t v := by
          intro b t v
          rw [hA b t v]
          by_cases hb : b = m.bid
          · subst hb
            rw [if_pos rfl]
            dsimp only
            by_cases ht : t = m.idx
            · subst ht
              rw [Function.update_same]
              have hR := hsum m.bid m.idx v
              rw [hvq v] at hR
              simp only [Option.getD_none]
              by_cases hv : v = m.vid
              · subst hv
                have hcm := metaContrib_self m
                have hc1 : metaContrib ⟨m.bid, m.idx, m.vid, m.qty - min q m.qty⟩
                    m.bid m.idx m.vid = m.qty - min q m.qty := by
                  unfold metaContrib
                  rw [if_pos ⟨rfl, rfl, rfl⟩]
                have hz : (PriceLevel.init.vqty m.vid : ℕ) = 0 := rfl
                omega
              · have hc1 : metaContrib ⟨m.bid, m.idx, m.vid, m.qty - min q m.qty⟩
                    m.bid m.idx v = 0 := by
                  unfold metaContrib
                  rw [if_neg]
                  rintro ⟨-, -, hh⟩
                  exact hv hh.symm
                have hc2 : metaContrib m m.bid m.idx v = 0 := by
                  unfold metaContrib
                  rw [if_neg]
                  rintro ⟨-, -, hh⟩
                  exact hv hh.symm
                have hpair := pair_le_sum_fin pl.vqty m.vid v (fun hh => hv hh.symm)
                have hz : (PriceLevel.init.vqty v : ℕ) = 0 := rfl
                omega
            · rw [Function.update_noteq ht]
              have hc1 : metaContrib ⟨m.bid, m.idx, m.vid, m.qty - min q m.qty⟩
                  m.bid t v = 0 := by
                unfold metaContrib
                rw [if_neg]
                rintro ⟨-, hh, -⟩
                exact ht hh.symm
              have hc2 : metaContrib m m.bid t v = 0 :=
                metaContrib_ne m m.bid t v (fun hh => ht hh.2.symm)
              have hR := hsum m.bid t v
              unfold levelVqty at hR
              omega
          · rw [if_neg hb]
            have hc1 : metaContrib ⟨m.bid, m.idx, m.vid, m.qty - min q m.qty⟩ b t v = 0 := by
              unfold metaContrib
              rw [if_neg]
              rintro ⟨hh, -, -⟩
              exact hb hh.symm
            have hc2 : metaContrib m b t v = 0 :=
              metaContrib_ne m b t v (fun hh => hb hh.1.symm)
            have hR := hsum b t v
            unfold levelVqty at hR
            omega
        have hfin := OrderBook.Inv_assemble ob m.bid
          (SideBook.mk (ob.getSide m.bid).is_bid
            ((ob.getSide m.bid).ticks.erase m.idx)
            (Function.update (ob.getSide m.bid).levels m.idx none))
          (ob.omap.insert oid ⟨m.bid, m.idx, m.vid, m.qty - min q m.qty⟩)
          hflag hwf (hflag m.bid) hWF2 hsums2
        dsimp only
        simp only [OrderBook.getSide_omap_set]
        rw [SideBook.remove_deplete (ob.getSide m.bid) m.idx m.vid (min q m.qty) pl hc
          haggU hdep]
        dsimp only
        rw [Function.update_same]
        exact hfin
      · have hlt : min q m.qty < pl.agg := by omega
        have hvU : pl.vqty m.vid < U32_MOD := by omega
        have hWF2 : (SideBook.mk (ob.getSide m.bid).is_bid (ob.getSide m.bid).ticks
            (Function.update (ob.getSide m.bid).levels m.idx
              (some ⟨Function.update pl.vqty m.vid (pl.vqty m.vid - min q m.qty),
                pl.agg - min q m.qty⟩))).WF := by
          constructor
          · intro t
            dsimp only
            rcases eq_or_ne t m.idx with rfl | ht
            · rw [Function.update_same]
              have h6 := hticks m.idx
              rw [hc] at h6
              simpa using h6
            · rw [Function.update_noteq ht]
              exact hticks t
          · intro t pl' hpl'
            dsimp only at hpl'
            rcases eq_or_ne t m.idx with rfl | ht
            · rw [Function.update_same] at hpl'
              injection hpl' with hpl'
              subst hpl'
              have hs := sum_update_fin pl.vqty m.vid (pl.vqty m.vid - min q m.qty)
              exact ⟨by dsimp only; omega, by dsimp only; omega, by dsimp only; omega⟩
            · rw [Function.update_noteq ht] at hpl'
              exact hlvls t pl' hpl'
        dsimp only
        simp only [OrderBook.getSide_omap_set]
        rw [SideBook.remove_partial (ob.getSide m.bid) m.idx m.vid (min q m.qty) pl hc
          haggU hvU htle hlt]
        dsimp only
        rw [Function.update_same]
        by_cases hz : m.qty - min q m.qty = 0
        · rw [if_pos hz]
          simp only [OrderBook.setSide_omap]
          rw [Finmap.erase_insert_self, OrderBook.omap_overwrite]
          have hsums2 : ∀ b t v,
              (((if b = m.bid then (SideBook.mk (ob.getSide m.bid).is_bid
                  (ob.getSide m.bid).ticks
                  (Function.update (ob.getSide m.bid).levels m.idx
                    (some ⟨Function.update pl.vqty m.vid (pl.vqty m.vid - min q m.qty),
                      pl.agg - min q m.qty⟩)))
                else ob.getSide b).levels t).getD PriceLevel.init).vqty v
                = orderSum (ob.omap.erase oid) b t v := by
            intro b t v
            rw [orderSum_erase ob.omap oid m hm b t v]
            by_cases hb : b = m.bid
            · subst hb
              rw [if_pos rfl]
              dsimp only
              by_cases ht : t = m.idx
              · subst ht
                rw [Function.update_same]
                have hR := hsum m.bid m.idx v
                rw [hvq v] at hR
                simp only [Option.getD_some]
                by_cases hv : v = m.vid
                · subst hv
                  rw [Function.update_same]
                  have hcm := metaContrib_self m
                  omega
                · have hc2 : metaContrib m m.bid m.idx v = 0 := by
                    unfold metaContrib
                    rw [if_neg]
                    rintro ⟨-, -, hh⟩
                    exact hv hh.symm
                  rw [Function.update_noteq hv]
                  omega
              · rw [Function.update_noteq ht]
                have hc2 : metaContrib m m.bid t v = 0 :=
                  metaContrib_ne m m.bid t v (fun hh => ht hh.2.symm)
                have hR := hsum m.bid t v
                unfold levelVqty at hR
                omega
            · rw [if_neg hb]
              have hc2 : metaContrib m b t v = 0 :=
                metaContrib_ne m b t v (fun hh => hb hh.1.symm)
              have hR := hsum b t v
              unfold levelVqty at hR
              omega
          exact OrderBook.Inv_assemble ob m.bid
            (SideBook.mk (ob.getSide m.bid).is_bid (ob.getSide m.bid).ticks
              (Function.update (ob.getSide m.bid).levels m.idx
                (some ⟨Function.update pl.vqty m.vid (pl.vqty m.vid - min q m.qty),
                  pl.agg - min q m.qty⟩)))
            (ob.omap.erase oid) hflag hwf (hflag m.bid) hWF2 hsums2
        · rw [if_neg hz]
          have hsums2 : ∀ b t v,
              (((if b = m.bid then (SideBook.mk (ob.getSide m.bid).is_bid
                  (ob.getSide m.bid).ticks
                  (Function.update (ob.getSide m.bid).levels m.idx
                    (some ⟨Function.update pl.vqty m.vid (pl.vqty m.vid - min q m.qty),
                      pl.agg - min q m.qty⟩)))
                else ob.getSide b).levels t).getD PriceLevel.init).vqty v
                = orderSum (ob.omap.insert oid
                    ⟨m.bid, m.idx, m.vid, m.qty - min q m.qty⟩) b t v := by
            intro b t v
            rw [hA b t v]
            by_cases hb : b = m.bid
            · subst hb
              rw [if_pos rfl]
              dsimp only
              by_cases ht : t = m.idx
              · subst ht
                rw [Function.update_same]
                have hR := hsum m.bid m.idx v
                rw [hvq v] at hR
                simp only [Option.getD_some]
                by_cases hv : v = m.vid
                · subst hv
                  rw [Function.update_same]
                  have hcm := metaContrib_self m
                  have hc1 : metaContrib ⟨m.bid, m.idx, m.vid, m.qty - min q m.qty⟩
                      m.bid m.idx m.vid = m.qty - min q m.qty := by
                    unfold metaContrib
                    rw [if_pos ⟨rfl, rfl, rfl⟩]
                  omega
                · have hc1 : metaContrib ⟨m.bid, m.idx, m.vid, m.qty - min q m.qty⟩
                      m.bid m.idx v = 0 := by
                    unfold metaContrib
                    rw [if_neg]
                    rintro ⟨-, -, hh⟩
                    exact hv hh.symm
                  have hc2 : metaContrib m m.bid m.idx v = 0 := by
                    unfold metaContrib
                    rw [if_neg]
                    rintro ⟨-, -, hh⟩
                    exact hv hh.symm
                  rw [Function.update_noteq hv]
                  omega
              · rw [Function.update_noteq ht]
                have hc1 : metaContrib ⟨m.bid, m.idx, m.vid, m.qty - min q m.qty⟩
                    m.bid t v = 0 := by
                  unfold metaContrib
                  rw [if_neg]
                  rintro ⟨-, hh, -⟩
                  exact ht hh.symm
                have hc2 : metaContrib m m.bid t v = 0 :=
                  metaContrib_ne m m.bid t v (fun hh => ht hh.2.symm)
                have hR := hsum m.bid t v
                unfold levelVqty at hR
                omega
            · rw [if_neg hb]
              have hc1 : metaContrib ⟨m.bid, m.idx, m.vid, m.qty - min q m.qty⟩ b t v = 0 := by
                unfold metaContrib
                rw [if_neg]
                rintro ⟨hh, -, -⟩
                exact hb hh.symm
              have hc2 : metaContrib m b t v = 0 :=
                metaContrib_ne m b t v (fun hh => hb hh.1.symm)
              have hR := hsum b t v
              unfold levelVqty at hR
              omega
          exact OrderBook.Inv_assemble ob m.bid
            (SideBook.mk (ob.getSide m.bid).is_bid (ob.getSide m.bid).ticks
              (Function.update (ob.getSide m.bid).levels m.idx
                (some ⟨Function.update pl.vqty m.vid (pl.vqty m.vid - min q m.qty),
                  pl.agg - min q m.qty⟩)))
            (ob.omap.insert oid ⟨m.bid, m.idx, m.vid, m.qty - min q m.qty⟩)
            hflag hwf (hflag m.bid) hWF2 hsums2

/-- The freshly constructed book satisfies the invariant. -/
theorem OrderBook.Inv_init : OrderBook.init.Inv := by
  refine ⟨?_, ?_, ?_⟩
  · intro b
    cases b <;> rfl
  · intro b
    constructor
    · intro t
      cases b <;> simp [OrderBook.init, OrderBook.getSide]
    · intro t pl hpl
      cases b <;> simp [OrderBook.init, OrderBook.getSide] at hpl
  · intro b t v
    cases b <;> rfl

/-- `on_replace` preserves the invariant when the new identifier is fresh and
the add does not overflow the level. -/
theorem OrderBook.Inv_replace (ob : OrderBook) (n o : String) (c : Char) (vid : Fin 14)
    (side : String) (price : ℚ) (qty : ℕ) (h : ob.Inv)
    (hv : venue_of_code c = some vid) (hq : 0 < qty)
    (hfresh : ob.omap.lookup n = none)
    (hbound : levelSum (ob.getSide (side == "BID")) (p2i price) + qty < U32_MOD) :
    (ob.on_replace n o c side price qty).1.Inv := by
  have hadd := OrderBook.Inv_add ob n c vid side price qty h hv hq hfresh hbound
  unfold OrderBook.on_replace
  rcases h1 : ob.on_add n c side price qty with ⟨ob1, r⟩
  rw [h1] at hadd
  cases r with
  | error e => exact hadd
  | ok res =>
    have hcan := OrderBook.Inv_cancel ob1 o hadd
    rcases h2 : ob1.on_cancel o with ⟨ob2, r2⟩
    rw [h2] at hcan
    dsimp only
    rw [h2]
    cases r2 with
    | error e => exact hcan
    | ok u => exact hcan

/-- C7 (amended). The initial book satisfies the invariant (P1 on both sides
together with the order-index consistency P2 needed to maintain it), and every
public operation preserves it, provided adds (and the add phase of replaces)
carry a fresh identifier, a recognized venue, positive quantity, and do not
push the level's total quantity to `2 ^ 32` or beyond; cancels and executes
preserve it unconditionally. In particular, after every such operation every
side book has its tick set equal to the occupied levels, and every present
level has positive aggregate equal to the sum of its (non-negative) per-venue
quantities. -/
theorem c7_invariants_preserved :
    OrderBook.Inv OrderBook.init ∧
    (∀ (ob : OrderBook) (oid : String) (c : Char) (vid : Fin 14) (side : String)
      (price : ℚ) (qty : ℕ), ob.Inv → venue_of_code c = some vid → 0 < qty →
      ob.omap.lookup oid = none →
      levelSum (ob.getSide (side == "BID")) (p2i price) + qty < U32_MOD →
      (ob.on_add oid c side price qty).1.Inv) ∧
    (∀ (ob : OrderBook) (oid : String), ob.Inv → (ob.on_cancel oid).1.Inv) ∧
    (∀ (ob : OrderBook) (oid : String) (q : ℕ), ob.Inv → (ob.on_execute oid q).1.Inv) ∧
    (∀ (ob : OrderBook) (n o : String) (c : Char) (vid : Fin 14) (side : String)
      (price : ℚ) (qty : ℕ), ob.Inv → venue_of_code c = some vid → 0 < qty →
      ob.omap.lookup n = none →
      levelSum (ob.getSide (side == "BID")) (p2i price) + qty < U32_MOD →
      (ob.on_replace n o c side price qty).1.Inv) :=
  ⟨OrderBook.Inv_init,
   fun ob oid c vid side price qty h hv hq hf hb =>
     OrderBook.Inv_add ob oid c vid side price qty h hv hq hf hb,
   fun ob oid h => OrderBook.Inv_cancel ob oid h,
   fun ob oid q h => OrderBook.Inv_execute ob oid q h,
   fun ob n o c vid side price qty h hv hq hf hb =>
     OrderBook.Inv_replace ob n o c vid side price qty h hv hq hf hb⟩

/-- Witness for C7: the invariant holds after a concrete valid add on the
fresh book. -/
theorem c7_invariants_preserved_witness :
    (OrderBook.init.on_add "a" 'C' "BID" 10 5).1.Inv := by
  have h := c7_invariants_preserved
  refine h.2.1 OrderBook.init "a" 'C' 0 "BID" 10 5 h.1 venue_C (by decide)
    (by simp [OrderBook.init]) ?_
  have hz : levelSum (OrderBook.init.getSide ("BID" == "BID")) (p2i 10) = 0 := by
    simp [levelSum, OrderBook.init, OrderBook.getSide, PriceLevel.init]
  rw [hz]
  unfold U32_MOD
  norm_num

/-- C7 counterexample. With `uint32` quantities, two adds of `2^31` shares at
the same level overflow the aggregate: the level at tick 1000 is still present
(its tick is in the tick set, and both venue quantities are `2^31`), yet its
aggregate is `0` — refuting "every present level has `agg > 0`" and
"`agg = Σ vqty[v]`" for unrestricted `u32` quantities. -/
theorem c7_counterexample_overflow :
    (((OrderBook.on_add (OrderBook.on_add OrderBook.init "a" 'C' "BID" 10 (2 ^ 31)).1
        "b" 'I' "BID" 10 (2 ^ 31)).1.bid_.levels 1000).getD PriceLevel.init).agg = 0 ∧
    (((OrderBook.on_add (OrderBook.on_add OrderBook.init "a" 'C' "BID" 10 (2 ^ 31)).1
        "b" 'I' "BID" 10 (2 ^ 31)).1.bid_.levels 1000).getD PriceLevel.init).vqty 1
      = 2 ^ 31 ∧
    ((OrderBook.on_add (OrderBook.on_add OrderBook.init "a" 'C' "BID" 10 (2 ^ 31)).1
        "b" 'I' "BID" 10 (2 ^ 31)).1.bid_.levels 1000).isSome = true ∧
    (1000 : ℤ) ∈ (OrderBook.on_add (OrderBook.on_add OrderBook.init "a" 'C' "BID" 10 (2 ^ 31)).1
        "b" 'I' "BID" 10 (2 ^ 31)).1.bid_.ticks := by
  have e : (OrderBook.init.on_add "a" 'C' "BID" 10 (2 ^ 31)).1 =
      { bid_ := ⟨true, {1000}, Function.update (fun _ => none) 1000
          (some ⟨Function.update (fun _ => 0) 0 (2 ^ 31), 2 ^ 31⟩)⟩
        ask_ := ⟨false, ∅, fun _ => none⟩
        omap := Finmap.insert "a" ⟨true, 1000, 0, 2 ^ 31⟩ ∅ } := by
    simp +decide [OrderBook.on_add, OrderBook.init, venue_C, OrderBook.getSide,
      OrderBook.setSide, SideBook.add, SideBook.best_idx, SideBook.sentinel,
      PriceLevel.init, PriceLevel.adjust, INT_MIN, INT_MAX, p2i_ten, u32add, U32_MOD]
  rw [e]
  refine ⟨?_, ?_, ?_, ?_⟩ <;>
    simp +decide [OrderBook.on_add, venue_I, OrderBook.getSide, OrderBook.setSide,
      SideBook.add, SideBook.best_idx, SideBook.sentinel, PriceLevel.init,
      PriceLevel.adjust, INT_MIN, INT_MAX, p2i_ten, u32add, U32_MOD, Function.update]
